import Mathlib

/-!
Verification development for the github-star-manager repository.

The Python sources under `src/` are shallowly embedded below:

* `StoreMgr`   — `src/data_manager.py` (`DataManager`): load/backup recovery,
  `merge_repositories`, `get_statistics`, `get_repositories_by_category`.
* `Fetcher`    — `src/fetch_stars.py` (`GitHubStarFetcher.fetch_starred_repos`).
* `AIProc`     — `src/ai_processor.py` (`AIProcessor.classify_repository`,
  `_call_github_ai`, `_heuristic_classify`).
* `ClassifyPy` — `src/classify.py` (`parse_ai_response`, `process_repo`).
* `DocGen`     — `src/generate_category_docs.py` (`CategoryDocGenerator`).
* `Readme`     — `src/update_readme.py` (`ReadmeUpdater.update_readme`).

External effects (HTTP, file system, clock) are modelled as explicit
parameters: HTTP servers become response oracles, files become values of an
explicit file-state type, and timestamps are threaded as opaque strings.
Python dict records become structures; a Python `None` value becomes `none`
of an `Option` field.  Text is modelled as `List Char` (Python `str` is a
sequence of code points, as is `String.data`).
-/

namespace StarMgr

/-- A repository record as stored in `data/stars_data.json`.  Field names
follow `GitHubStarFetcher._process_repo_data` / `DataManager`; fields that
Python may hold as `None` are `Option`s. -/
structure StoreRepo where
  id : Nat
  name : String
  full_name : String
  description : Option String
  html_url : String
  language : Option String
  stargazers_count : Nat
  forks_count : Nat
  topics : List String
  starred_at : String
  is_classified : Bool
  category : Option String
  summary : Option String
  key_features : List String
deriving DecidableEq, Repr

/-- Store metadata, mirroring `_create_empty_data_structure` in
`data_manager.py`. -/
structure Metadata where
  total_count : Nat
  classified_count : Nat
  unclassified_count : Nat
  last_fetch_time : Option String
  last_classification_time : Option String
  fetch_mode : String
  username : Option String
  version : String
deriving DecidableEq, Repr

/-- The whole data file: metadata plus the repository list. -/
structure StoreData where
  metadata : Metadata
  repositories : List StoreRepo
deriving DecidableEq, Repr

namespace StoreMgr

/-- Mirrors `DataManager._create_empty_data_structure`. -/
def createEmptyDataStructure : StoreData :=
  { metadata :=
      { total_count := 0
        classified_count := 0
        unclassified_count := 0
        last_fetch_time := none
        last_classification_time := none
        fetch_mode := "incremental"
        username := none
        version := "1.0.0" }
    repositories := [] }

/-- State of a JSON file on disk as far as `json.load` is concerned:
absent, present but failing to parse (`json.JSONDecodeError`), or parsing
to a data dictionary. -/
inductive FileState where
  | missing
  | corrupt
  | valid (d : StoreData)
deriving DecidableEq

/-- Mirrors `DataManager._restore_from_backup`: a readable, parseable
backup is returned; a missing or corrupt backup falls through to the
empty structure.  The Python `except` clause catches the parse failure,
so nothing propagates. -/
def restoreFromBackup (backupFile : FileState) : StoreData :=
  match backupFile with
  | .valid d => d
  | .missing => createEmptyDataStructure
  | .corrupt => createEmptyDataStructure

/-- Mirrors `DataManager.load_data`: a missing data file yields a fresh
empty structure; a parse failure is caught and delegated to
`_restore_from_backup`.  The function is total — no path raises. -/
def load_data (dataFile backupFile : FileState) : StoreData :=
  match dataFile with
  | .missing => createEmptyDataStructure
  | .valid d => d
  | .corrupt => restoreFromBackup backupFile

/-- Classification fields preserved by `merge_repositories`: the merged
record is `{**new_repo, **classification_fields}`, i.e. the incoming
record with `is_classified`, `category`, `summary`, `key_features`
taken from the existing record. -/
def mergeRecord (n e : StoreRepo) : StoreRepo :=
  { n with
    is_classified := e.is_classified
    category := e.category
    summary := e.summary
    key_features := e.key_features }

/-- Index lookup modelling the Python dict
`existing_ids = {repo['id']: i for i, repo in enumerate(existing_repos)}`:
a later occurrence of the same id overwrites an earlier one, so the
lookup yields the index of the last occurrence. -/
def lastIdxOf : List StoreRepo → Nat → Option Nat
  | [], _ => none
  | r :: rest, rid =>
    match lastIdxOf rest rid with
    | some j => some (j + 1)
    | none => if r.id = rid then some 0 else none

/-- The loop body state of `DataManager.merge_repositories`: `merged`
starts as a copy of `existing_repos` and is updated in place (matched id)
or extended (new id) for each incoming record in order. -/
def mergeAux (existing : List StoreRepo) : List StoreRepo → List StoreRepo → List StoreRepo
  | merged, [] => merged
  | merged, n :: rest =>
    match lastIdxOf existing n.id with
    | some i => mergeAux existing (merged.set i (mergeRecord n (merged[i]?.getD n))) rest
    | none => mergeAux existing (merged ++ [n]) rest

/-- Mirrors `DataManager.merge_repositories` (the returned list; the
logged new/updated counters are not modelled). -/
def merge_repositories (existing_repos new_repos : List StoreRepo) : List StoreRepo :=
  mergeAux existing_repos existing_repos new_repos

/-- Mirrors `DataManager.get_repositories_by_category` for an in-memory
data dictionary (the `data is None` reload branch is I/O and is resolved
by the caller passing the loaded data). -/
def get_repositories_by_category (category : String) (data : StoreData) : List StoreRepo :=
  data.repositories.filter (fun r => r.category = some category ∧ r.is_classified)

/-- Increment the counter for `key` in an association list, mirroring
`d[key] = d.get(key, 0) + 1` on a Python dict (insertion order kept:
a fresh key is appended). -/
def alistIncr (key : String) : List (String × Nat) → List (String × Nat)
  | [] => [(key, 1)]
  | (k, v) :: rest =>
    if k = key then (k, v + 1) :: rest else (k, v) :: alistIncr key rest

/-- Stable insertion of `x` into a list sorted descending by `f`,
keeping earlier elements first on ties (Python's `sorted` is stable). -/
def insertDescBy (f : α → Nat) (x : α) : List α → List α
  | [] => [x]
  | y :: ys => if f y > f x then y :: insertDescBy f x ys else x :: y :: ys

/-- Stable sort, descending by `f`: models Python
`sorted(items, key=..., reverse=True)`. -/
def sortDescBy (f : α → Nat) (l : List α) : List α :=
  l.foldr (insertDescBy f) []

/-- The `basic` block of `DataManager.get_statistics`. -/
structure BasicStats where
  total_repositories : Nat
  classified_repositories : Nat
  unclassified_repositories : Nat
  classification_rate : ℚ
deriving DecidableEq, Repr

/-- The `stars` block of `DataManager.get_statistics`. -/
structure StarStats where
  average : ℚ
  maximum : Nat
  minimum : Nat
  total : Nat
deriving DecidableEq, Repr

/-- The `metadata` echo block of `DataManager.get_statistics`. -/
structure MetaStats where
  last_fetch_time : Option String
  last_classification_time : Option String
  fetch_mode : String
  username : Option String
deriving DecidableEq, Repr

/-- Return value of `DataManager.get_statistics`. -/
structure Statistics where
  basic : BasicStats
  categories : List (String × Nat)
  languages : List (String × Nat)
  stars : StarStats
  metadata : MetaStats
deriving DecidableEq, Repr

/-- Python float `round(q, 2)` modelled over exact rationals (the
binary-float representation and its tie-to-even rule are outside the
embedding; no claim depends on the tie case). -/
def roundTo2 (q : ℚ) : ℚ := (round (q * 100) : ℤ) / 100

/-- Mirrors `DataManager.get_statistics` on an in-memory data dictionary
(the `data is None` reload branch is resolved by the caller passing the
loaded data).  Python float arithmetic is modelled by exact rationals. -/
def get_statistics (data : StoreData) : Statistics :=
  let repos := data.repositories
  let total_count := repos.length
  let classified_count := (repos.filter (fun r => r.is_classified)).length
  let unclassified_count := total_count - classified_count
  let category_stats := repos.foldl
    (fun acc r =>
      if r.is_classified then alistIncr (r.category.getD "未分类") acc else acc) []
  let language_stats := repos.foldl
    (fun acc r =>
      let lang := match r.language with
        | some s => if s = "" then "未知" else s
        | none => "未知"
      alistIncr lang acc) []
  let star_counts : List Nat := repos.map (fun r => r.stargazers_count)
  let avg_stars : ℚ :=
    if star_counts ≠ [] then (star_counts.sum : ℚ) / (star_counts.length : ℚ) else 0
  let max_stars := match star_counts with
    | [] => 0
    | c :: cs => cs.foldl Nat.max c
  let min_stars := match star_counts with
    | [] => 0
    | c :: cs => cs.foldl Nat.min c
  { basic :=
      { total_repositories := total_count
        classified_repositories := classified_count
        unclassified_repositories := unclassified_count
        classification_rate :=
          if total_count > 0 then (classified_count : ℚ) / (total_count : ℚ) * 100 else 0 }
    categories := category_stats
    languages := (sortDescBy Prod.snd language_stats).take 10
    stars :=
      { average := roundTo2 avg_stars
        maximum := max_stars
        minimum := min_stars
        total := star_counts.sum }
    metadata :=
      { last_fetch_time := data.metadata.last_fetch_time
        last_classification_time := data.metadata.last_classification_time
        fetch_mode := data.metadata.fetch_mode
        username := data.metadata.username } }

end StoreMgr

/-- Concrete classified store record used by witnesses. -/
def wExisting1 : StoreRepo :=
  { id := 1, name := "repoe", full_name := "o/repoe", description := some "old desc"
    html_url := "https://github.com/o/repoe", language := some "Go"
    stargazers_count := 5, forks_count := 0, topics := ["old"]
    starred_at := "2024-01-01", is_classified := true
    category := some "开发工具", summary := some "a summary"
    key_features := ["feat"] }

/-- Concrete incoming record sharing id 1, with refreshed descriptive
fields and cleared classification fields. -/
def wIncoming1 : StoreRepo :=
  { id := 1, name := "repoe", full_name := "o/repoe", description := some "new desc"
    html_url := "https://github.com/o/repoe", language := some "Python"
    stargazers_count := 42, forks_count := 2, topics := ["cli"]
    starred_at := "2024-02-02", is_classified := false
    category := none, summary := none, key_features := [] }

/-- Concrete incoming record with the fresh id 2. -/
def wIncoming2 : StoreRepo :=
  { id := 2, name := "repof", full_name := "o/repof", description := none
    html_url := "https://github.com/o/repof", language := none
    stargazers_count := 7, forks_count := 0, topics := []
    starred_at := "2024-02-02", is_classified := false
    category := none, summary := none, key_features := [] }

namespace AIProc

/-- Python `str.lower()` restricted to ASCII case mapping (every keyword
the classifier compares against is ASCII). -/
def lowerStr (s : String) : String := ⟨s.data.map Char.toLower⟩

/-- Char-list test that `pat` starts `l`. -/
def startsWithCl : List Char → List Char → Bool
  | [], _ => true
  | _ :: _, [] => false
  | c :: cs, d :: ds => c = d && startsWithCl cs ds

/-- Char-list substring test, modelling Python's `pat in text`. -/
def occursCl (pat : List Char) : List Char → Bool
  | [] => startsWithCl pat []
  | l@(_ :: rest) => startsWithCl pat l || occursCl pat rest

/-- Python `pat in text` on strings. -/
def strOccurs (pat s : String) : Bool := occursCl pat.data s.data

/-- Python `any(keyword in all_text for keyword in kws)`. -/
def anyKeyword (kws : List String) (txt : String) : Bool :=
  kws.any (fun k => strOccurs k txt)

/-- The `all_text` value of `AIProcessor._heuristic_classify`: lowercased
description (empty when falsy), lowercased language (empty when falsy)
and the lowercased topics joined by spaces. -/
def heuristicText (r : StarMgr.StoreRepo) : String :=
  let desc := match r.description with
    | some d => if d = "" then "" else lowerStr d
    | none => ""
  let lang := match r.language with
    | some s => if s = "" then "" else lowerStr s
    | none => ""
  desc ++ " " ++ lang ++ " " ++ String.intercalate " " (r.topics.map lowerStr)

/-- The ordered keyword table of `AIProcessor._heuristic_classify`: one
row per `if any(keyword in all_text ...)` branch, in source order
(the 14th row is the trailing README/documentation check that also
returns `学习资源`). -/
def heuristicTable : List (List String × String) :=
  [(["frontend", "front-end", "react", "vue", "angular", "javascript",
     "typescript", "html", "css", "ui", "ux"], "前端开发"),
   (["backend", "back-end", "api", "server", "database", "django",
     "flask", "express", "spring", "node.js"], "后端开发"),
   (["fullstack", "full-stack", "web app", "webapp"], "全栈开发"),
   (["mobile", "android", "ios", "flutter", "react native", "swift",
     "kotlin"], "移动应用开发"),
   (["ai", "artificial intelligence", "machine learning", "ml",
     "deep learning", "neural", "tensorflow", "pytorch", "nlp"], "人工智能/机器学习"),
   (["data science", "data analysis", "analytics", "visualization",
     "pandas", "jupyter", "statistics"], "数据科学/分析"),
   (["devops", "ci/cd", "pipeline", "docker", "kubernetes", "k8s",
     "infrastructure", "deploy", "aws", "cloud"], "DevOps/基础设施"),
   (["security", "pentest", "penetration", "hacking", "vulnerability",
     "encryption", "crypto"], "安全工具"),
   (["tool", "utility", "plugin", "extension", "ide", "editor",
     "development tool"], "开发工具"),
   (["tutorial", "course", "learning", "education", "book", "guide",
     "example", "awesome"], "学习资源"),
   (["blockchain", "web3", "crypto", "nft", "token", "ethereum",
     "bitcoin", "solidity"], "区块链/Web3"),
   (["game", "unity", "unreal", "gaming"], "游戏开发"),
   (["iot", "internet of things", "embedded", "arduino",
     "raspberry pi"], "物联网"),
   (["awesome", "list", "resource", "collection", "tutorial", "guide",
     "book", "course", "learn", "cheatsheet", "documentation"], "学习资源")]

/-- The if-chain of `AIProcessor._heuristic_classify` applied to an
already-assembled `all_text` value: the first branch whose keyword list
matches wins, default `其他`. -/
def heuristicFromText (t : String) : String :=
  match heuristicTable.find? (fun p => anyKeyword p.1 t) with
  | some p => p.2
  | none => "其他"

/-- Mirrors `AIProcessor._heuristic_classify`. -/
def heuristic_classify (r : StarMgr.StoreRepo) : String :=
  heuristicFromText (heuristicText r)

/-- The category enumeration of `config.py` (`CONFIG["categories"]`). -/
def defaultCategories : List String :=
  ["前端开发", "后端开发", "全栈开发", "移动应用开发", "人工智能/机器学习",
   "数据科学/分析", "DevOps/基础设施", "安全工具", "开发工具", "学习资源",
   "区块链/Web3", "游戏开发", "物联网", "其他"]

/-- One HTTP attempt's outcome as seen by `_call_github_ai`: a 200
response whose parsed body yields `content` as the completion text, a
non-200 status code, or one of the caught exception classes
(`Timeout`, `RequestException`, any other `Exception`). -/
inductive AIOutcome where
  | success (content : String)
  | status (code : Nat)
  | timeout
  | requestError
  | otherError
deriving DecidableEq

/-- The retry loop of `AIProcessor._call_github_ai`: `attempt` is the
Python loop index, the second argument counts the remaining loop
iterations (initially `max_retries`, so the structural fuel is exactly
the Python loop bound).  Returns the Python return value (`none` models
the implicit `return None` when the loop falls through after repeated
429s; `some ""` models the explicit `return ""` branches) paired with
the number of HTTP requests issued.  Sleeps are not modelled. -/
def callAux (resp : Nat → AIOutcome) (maxRetries : Nat) : Nat → Nat → Option String × Nat
  | _, 0 => (none, 0)
  | attempt, r + 1 =>
    match resp attempt with
    | .success content => (some content, 1)
    | .status code =>
      if code = 429 then
        let p := callAux resp maxRetries (attempt + 1) r
        (p.1, p.2 + 1)
      else if attempt < maxRetries - 1 then
        let p := callAux resp maxRetries (attempt + 1) r
        (p.1, p.2 + 1)
      else (some "", 1)
    | .timeout =>
      if attempt < maxRetries - 1 then
        let p := callAux resp maxRetries (attempt + 1) r
        (p.1, p.2 + 1)
      else (some "", 1)
    | .requestError =>
      if attempt < maxRetries - 1 then
        let p := callAux resp maxRetries (attempt + 1) r
        (p.1, p.2 + 1)
      else (some "", 1)
    | .otherError =>
      if attempt < maxRetries - 1 then
        let p := callAux resp maxRetries (attempt + 1) r
        (p.1, p.2 + 1)
      else (some "", 1)

/-- Mirrors `AIProcessor._call_github_ai` (with the attempt counter
exposed; the `if not self.api_key: return ""` guard is kept). -/
def callGithubAI (apiKey : String) (resp : Nat → AIOutcome) (maxRetries : Nat) :
    Option String × Nat :=
  if apiKey = "" then (some "", 0) else callAux resp maxRetries 0 maxRetries

/-- The cache key of `AIProcessor.classify_repository`:
`repo_data.get("id") or repo_data.get("full_name")` (a zero id is falsy
in Python). -/
def cacheKey (r : StarMgr.StoreRepo) : String :=
  "classify_" ++ (if r.id ≠ 0 then Nat.repr r.id else r.full_name)

/-- Mirrors `AIProcessor.classify_repository`.  Returns the
classification, the number of HTTP requests issued, and the updated
cache.  The `none` branch models the `AttributeError` raised by
`None.strip()` after the retry loop falls through, which the
surrounding `except Exception` turns into the heuristic fallback — so
no exception ever reaches the caller, matching the totality of this
function. -/
def classify_repository (apiKey : String) (categories : List String)
    (maxRetries : Nat) (resp : Nat → AIOutcome)
    (cache : List (String × String)) (repo : StarMgr.StoreRepo) :
    String × Nat × List (String × String) :=
  let key := cacheKey repo
  match cache.find? (fun p => p.1 = key) with
  | some p => (p.2, 0, cache)
  | none =>
    if apiKey = "" then
      let result := heuristic_classify repo
      (result, 0, (key, result) :: cache)
    else
      let call := callGithubAI apiKey resp maxRetries
      match call.1 with
      | none =>
        let result := heuristic_classify repo
        (result, call.2, (key, result) :: cache)
      | some s =>
        let result := s.trim
        if result ∈ categories then (result, call.2, (key, result) :: cache)
        else
          match categories.find? (fun c =>
              strOccurs (lowerStr result) (lowerStr c)
                || strOccurs (lowerStr c) (lowerStr result)) with
          | some c => (c, call.2, (key, c) :: cache)
          | none =>
            let result := heuristic_classify repo
            (result, call.2, (key, result) :: cache)

end AIProc

namespace ClassifyPy

/-- The opening-brace code point (avoids brace characters in source). -/
def lbrace : Char := Char.ofNat 123

/-- The closing-brace code point. -/
def rbrace : Char := Char.ofNat 125

/-- JSON values as produced by `json.loads`. -/
inductive Json where
  | null
  | bool (b : Bool)
  | num (n : Int)
  | str (s : String)
  | arr (xs : List Json)
  | obj (kvs : List (String × Json))

/-- JSON insignificant whitespace. -/
def isWsChar (c : Char) : Bool := c = ' ' || c = '\t' || c = '\n' || c = '\r'

/-- Drop leading JSON whitespace. -/
def skipWs (l : List Char) : List Char := l.dropWhile isWsChar

/-- Match a literal char sequence, returning the rest on success. -/
def matchChars : List Char → List Char → Option (List Char)
  | [], l => some l
  | _ :: _, [] => none
  | p :: ps, c :: cs => if p = c then matchChars ps cs else none

/-- Parse the body of a JSON string after the opening quote, up to the
closing quote, handling the single-char escapes; a `\u` escape is
outside this model and fails. -/
def parseStringBody : List Char → Option (List Char × List Char)
  | [] => none
  | '"' :: rest => some ([], rest)
  | '\\' :: e :: rest =>
    let esc : Option Char :=
      if e = '"' ∨ e = '\\' ∨ e = '/' then some e
      else if e = 'n' then some '\n'
      else if e = 't' then some '\t'
      else if e = 'r' then some '\r'
      else none
    match esc with
    | some c => (parseStringBody rest).map (fun p => (c :: p.1, p.2))
    | none => none
  | c :: rest => (parseStringBody rest).map (fun p => (c :: p.1, p.2))

/-- Digit run to a natural number. -/
def digitsToNat (ds : List Char) : Nat :=
  ds.foldl (fun a c => a * 10 + (c.toNat - 48)) 0

/-- Parse an unsigned JSON integer (fractions and exponents are outside
this model and fail). -/
def parseNatNum (l : List Char) : Option (Nat × List Char) :=
  let p := l.span Char.isDigit
  if p.1 = [] then none
  else
    match p.2 with
    | c :: _ => if c = '.' ∨ c = 'e' ∨ c = 'E' then none
                else some (digitsToNat p.1, p.2)
    | [] => some (digitsToNat p.1, p.2)

/-- Parse a JSON integer with optional sign. -/
def parseNumber : List Char → Option (Int × List Char)
  | '-' :: rest => (parseNatNum rest).map (fun p => (-(p.1 : Int), p.2))
  | l => (parseNatNum l).map (fun p => ((p.1 : Int), p.2))

/-- Intermediate results of the fuelled JSON reader. -/
inductive PRes where
  | val (j : Json)
  | items (xs : List Json)
  | fields (kvs : List (String × Json))

/-- Reader modes: a single value, array items, or object members. -/
inductive PMode where
  | val
  | arrItems
  | objItems

/-- Fuelled recursive-descent JSON reader, modelling `json.loads` on the
value grammar the AI pipeline exchanges (strings, integers, booleans,
null, arrays, objects).  The fuel is structural; `jsonLoads` supplies
enough for any input.  It is slightly lax about trailing commas, which
no claim exercises. -/
def parseP : Nat → PMode → List Char → Option (PRes × List Char)
  | 0, _, _ => none
  | fuel + 1, .val, l =>
    match skipWs l with
    | [] => none
    | c :: rest =>
      if c = '"' then (parseStringBody rest).map (fun p => (.val (.str ⟨p.1⟩), p.2))
      else if c = lbrace then
        match parseP fuel .objItems rest with
        | some (.fields kvs, r) => some (.val (.obj kvs), r)
        | _ => none
      else if c = '[' then
        match parseP fuel .arrItems rest with
        | some (.items xs, r) => some (.val (.arr xs), r)
        | _ => none
      else if c = 't' then (matchChars ['r', 'u', 'e'] rest).map (fun r => (.val (.bool true), r))
      else if c = 'f' then (matchChars ['a', 'l', 's', 'e'] rest).map (fun r => (.val (.bool false), r))
      else if c = 'n' then (matchChars ['u', 'l', 'l'] rest).map (fun r => (.val .null, r))
      else (parseNumber (c :: rest)).map (fun p => (.val (.num p.1), p.2))
  | fuel + 1, .arrItems, l =>
    match skipWs l with
    | ']' :: rest => some (.items [], rest)
    | _ =>
      match parseP fuel .val (skipWs l) with
      | some (.val j, r) =>
        match skipWs r with
        | ',' :: r2 =>
          match parseP fuel .arrItems r2 with
          | some (.items xs, r3) => some (.items (j :: xs), r3)
          | _ => none
        | ']' :: r2 => some (.items [j], r2)
        | _ => none
      | _ => none
  | fuel + 1, .objItems, l =>
    match skipWs l with
    | '"' :: rest =>
      match parseStringBody rest with
      | some (key, r) =>
        match skipWs r with
        | ':' :: r2 =>
          match parseP fuel .val r2 with
          | some (.val j, r3) =>
            match skipWs r3 with
            | ',' :: r4 =>
              match parseP fuel .objItems r4 with
              | some (.fields kvs, r5) => some (.fields ((⟨key⟩, j) :: kvs), r5)
              | _ => none
            | c :: r4 => if c = rbrace then some (.fields [(⟨key⟩, j)], r4) else none
            | _ => none
          | _ => none
        | _ => none
      | none => none
    | c :: rest => if c = rbrace then some (.fields [], rest) else none
    | _ => none

/-- Mirrors `json.loads` on a whole string: parse one value and require
only whitespace to remain. -/
def jsonLoads (s : String) : Option Json :=
  match parseP (2 * s.length + 2) .val s.data with
  | some (.val j, rest) => if skipWs rest = [] then some j else none
  | _ => none

/-- The suffix after the first occurrence of `pat` — Python
`text.split(pat, 1)[1]`; `none` when `pat` does not occur. -/
def splitAfterFirst (pat : List Char) : List Char → Option (List Char)
  | [] => matchChars pat []
  | l@(_ :: rest) =>
    match matchChars pat l with
    | some r => some r
    | none => splitAfterFirst pat rest

/-- The prefix before the first occurrence of `pat` — Python
`text.split(pat, 1)[0]` when `pat` occurs; `none` when it does not
(which Python reports via the `in` test). -/
def beforeFirst (pat : List Char) : List Char → Option (List Char)
  | [] => (matchChars pat []).map (fun _ => [])
  | l@(c :: rest) =>
    match matchChars pat l with
    | some _ => some []
    | none => (beforeFirst pat rest).map (fun p => c :: p)

/-- Python `response[response.find(lbrace):response.rfind(rbrace)+1]`:
everything from the first opening brace through the last closing brace
(empty when the last closing brace precedes the first opening brace,
matching the empty Python slice). -/
def braceSliceCl (l : List Char) : List Char :=
  (((l.dropWhile (fun c => c ≠ lbrace)).reverse.dropWhile (fun c => c ≠ rbrace)).reverse)

/-- The fallback object `parse_ai_response` returns when nothing
parses. -/
def defaultAIResult : Json :=
  Json.obj [("category", .str "其他"), ("summary", .str "无法生成摘要"),
            ("key_features", .arr [.str "无法识别特点"])]

/-- Shared third strategy and fallback of `parse_ai_response`: when both
braces occur, parse the first-to-last brace slice, else (or on parse
failure) return the default object. -/
def braceStrategy (response : String) : Json :=
  if response.data.contains lbrace && response.data.contains rbrace then
    match jsonLoads ⟨braceSliceCl response.data⟩ with
    | some v => v
    | none => defaultAIResult
  else defaultAIResult

/-- Mirrors `parse_ai_response` in `classify.py`: (a) parse the whole
text; else (b) if a fenced json block opens and closes, parse its
contents, any failure inside the fenced attempt yielding the default
(the Python `except` around the whole second `try`); else (c) parse the
first-to-last brace slice; else the default object. -/
def parse_ai_response (response : String) : Json :=
  match jsonLoads response with
  | some v => v
  | none =>
    match splitAfterFirst "```json".data response.data with
    | some afterTag =>
      match beforeFirst "```".data afterTag with
      | some fenced =>
        match jsonLoads ⟨fenced⟩ with
        | some v => v
        | none => defaultAIResult
      | none => braceStrategy response
    | none => braceStrategy response

/-- Python dict lookup on parsed JSON members (`json.loads` keeps the
last of duplicate keys). -/
def dictGet (kvs : List (String × Json)) (k : String) : Option Json :=
  (kvs.reverse.find? (fun p => p.1 = k)).map (fun p => p.2)

/-- The category that `process_repo` in `classify.py` stores when the AI
call returned text: `result.get('category', '其他')` on the parsed
response, with no validation against the category list.  A non-object
parse makes Python raise `AttributeError` at `.get`, modelled by
`Except.error`. -/
def process_repo_category (response : String) : Except Unit Json :=
  match parse_ai_response response with
  | .obj kvs => .ok ((dictGet kvs "category").getD (.str "其他"))
  | _ => .error ()

/-- Balanced-brace scan used only to model the SPEC's description of the
third strategy ("extract the first balanced span"); compared against the
code's actual first-to-last slice. -/
def scanBalanced : List Char → Nat → List Char → Option (List Char)
  | [], _, _ => none
  | c :: rest, depth, acc =>
    if c = lbrace then scanBalanced rest (depth + 1) (acc ++ [c])
    else if c = rbrace then
      (if depth = 1 then some (acc ++ [c]) else scanBalanced rest (depth - 1) (acc ++ [c]))
    else scanBalanced rest depth (acc ++ [c])

/-- First balanced brace span of a text, per the spec's words. -/
def firstBalanced (l : List Char) : Option (List Char) :=
  match l.dropWhile (fun c => c ≠ lbrace) with
  | [] => none
  | l' => scanBalanced l' 0 []

/-- Modelled from the spec: the extractor as the SPEC describes it —
strategies (a) and (b) as in the code, but strategy (c) extracting the
first balanced brace span.  Used only to compare the spec's description
with the code's behaviour. -/
def specDescribedExtract (response : String) : Json :=
  match jsonLoads response with
  | some v => v
  | none =>
    match splitAfterFirst "```json".data response.data with
    | some afterTag =>
      match beforeFirst "```".data afterTag with
      | some fenced =>
        match jsonLoads ⟨fenced⟩ with
        | some v => v
        | none => defaultAIResult
      | none =>
        match firstBalanced response.data with
        | some span =>
          match jsonLoads ⟨span⟩ with
          | some v => v
          | none => defaultAIResult
        | none => defaultAIResult
    | none =>
      match firstBalanced response.data with
      | some span =>
        match jsonLoads ⟨span⟩ with
        | some v => v
        | none => defaultAIResult
      | none => defaultAIResult

/-- The spec's literal fenced-block example text. -/
def exampleFencedText : String :=
  "Here is the result:\n```json\n\x7b\"category\":\"开发工具\",\"summary\":\"A CLI tool for X\",\"key_features\":[\"fast\",\"simple\"]\x7d\n```\n"

/-- The object the spec expects the extractor to return on
`exampleFencedText`. -/
def exampleFencedResult : Json :=
  Json.obj [("category", .str "开发工具"), ("summary", .str "A CLI tool for X"),
            ("key_features", .arr [.str "fast", .str "simple"])]

/-- Input on which the code's first-to-last brace slice and the spec's
first balanced span disagree. -/
def twoObjectsText : String :=
  "a\x7b\"x\":1\x7db\x7b\"y\":2\x7d"

/-- Number of members of a JSON object (discriminator used to separate
unequal objects). -/
def objFieldCount : Json → Nat
  | .obj kvs => kvs.length
  | _ => 0

/-- A response whose parsed category is not in the configured
enumeration. -/
def rogueCategoryResponse : String :=
  "\x7b\"category\":\"神秘分类\",\"summary\":\"s\",\"key_features\":[]\x7d"

end ClassifyPy

/-- One HTTP attempt of the star-fetch paging loop: the owner type of a
repository payload. -/
structure RawOwner where
  login : String
  ownerType : String
deriving DecidableEq, Repr

/-- A raw GitHub API repository payload, with exactly the fields
`GitHubStarFetcher._process_repo_data` reads (nullable JSON fields are
`Option`s; `license` is already the nested license name or null). -/
structure RawRepo where
  id : Nat
  name : String
  full_name : String
  description : Option String
  html_url : String
  clone_url : String
  language : Option String
  stargazers_count : Nat
  forks_count : Nat
  open_issues_count : Nat
  topics : List String
  created_at : String
  updated_at : String
  pushed_at : Option String
  size : Nat
  default_branch : String
  archived : Bool
  disabled : Bool
  isPrivate : Bool
  fork : Bool
  owner : RawOwner
  license : Option String
deriving DecidableEq, Repr

/-- The record shape `_process_repo_data` produces. -/
structure FetchedRepo where
  id : Nat
  name : String
  full_name : String
  description : Option String
  html_url : String
  clone_url : String
  language : Option String
  stargazers_count : Nat
  forks_count : Nat
  open_issues_count : Nat
  topics : List String
  created_at : String
  updated_at : String
  pushed_at : Option String
  size : Nat
  default_branch : String
  archived : Bool
  disabled : Bool
  isPrivate : Bool
  fork : Bool
  owner : RawOwner
  license : Option String
  starred_at : String
  is_classified : Bool
  category : Option String
  summary : Option String
  key_features : List String
deriving DecidableEq, Repr

namespace Fetcher

/-- Mirrors `GitHubStarFetcher._process_repo_data` (`now` is
`datetime.now(timezone.utc).isoformat()`). -/
def processRepoData (now : String) (r : RawRepo) : FetchedRepo :=
  { id := r.id, name := r.name, full_name := r.full_name
    description := r.description, html_url := r.html_url
    clone_url := r.clone_url, language := r.language
    stargazers_count := r.stargazers_count, forks_count := r.forks_count
    open_issues_count := r.open_issues_count, topics := r.topics
    created_at := r.created_at, updated_at := r.updated_at
    pushed_at := r.pushed_at, size := r.size
    default_branch := r.default_branch, archived := r.archived
    disabled := r.disabled, isPrivate := r.isPrivate, fork := r.fork
    owner := r.owner, license := r.license
    starred_at := now, is_classified := false, category := none
    summary := none, key_features := [] }

/-- The fetch limits of `config.yaml` used by `fetch_starred_repos`. -/
structure FetchConfig where
  max_full_fetch : Nat
  max_incremental_fetch : Nat
deriving DecidableEq, Repr

/-- Mirrors `GitHubStarFetcher._get_last_fetch_time`: reads
`metadata.last_fetch_time` from the data file; a missing or unparseable
file yields `None`. -/
def getLastFetchTime : StoreMgr.FileState → Option String
  | .valid d => d.metadata.last_fetch_time
  | _ => none

/-- The paging loop of `fetch_starred_repos`.  `resp page` is the HTTP
layer: `none` models `_make_request` returning `None` (retries
exhausted or fatal status), `some items` the parsed page.  The inner
for-loop appends processed repos until `max_repos`, i.e. takes
`max_repos - len(repos)` items.  The fuel argument is structural; every
continuing iteration appends at least one repository while the loop
guard needs `repos.length < maxRepos`, so `maxRepos + 1` fuel covers
every execution of the Python while-loop. -/
def fetchLoop (resp : Nat → Option (List RawRepo)) (maxRepos : Nat) (now : String) :
    Nat → Nat → List FetchedRepo → List FetchedRepo
  | 0, _, repos => repos
  | fuel + 1, page, repos =>
    if repos.length < maxRepos then
      match resp page with
      | none => repos
      | some pageRepos =>
        if pageRepos.isEmpty then repos
        else
          fetchLoop resp maxRepos now fuel (page + 1)
            (repos ++ (pageRepos.take (maxRepos - repos.length)).map (processRepoData now))
    else repos

/-- Mirrors `GitHubStarFetcher.fetch_starred_repos`: full mode fetches up
to `max_full_fetch` with no `since` parameter; any other mode is
incremental, reading `last_fetch_time` from the data file as the `since`
parameter and capping at `max_incremental_fetch`.  The response oracle
receives the `since` parameter and the page number. -/
def fetch_starred_repos (cfg : FetchConfig)
    (resp : Option String → Nat → Option (List RawRepo))
    (dataFile : StoreMgr.FileState) (mode : String) (now : String) :
    List FetchedRepo :=
  let maxRepos := if mode = "full" then cfg.max_full_fetch else cfg.max_incremental_fetch
  let since := if mode = "full" then none else getLastFetchTime dataFile
  fetchLoop (resp since) maxRepos now (maxRepos + 1) 1 []

end Fetcher

/-- A store whose only repository has id 1 (used by the C2
counterexample). -/
def wFetchStoreData : StoreData :=
  { metadata := StoreMgr.createEmptyDataStructure.metadata
    repositories := [wExisting1] }

/-- A raw payload sharing id 1 with the store's record. -/
def wRawKnown : RawRepo :=
  { id := 1, name := "repoe", full_name := "o/repoe", description := some "d"
    html_url := "https://github.com/o/repoe", clone_url := "c", language := some "Go"
    stargazers_count := 6, forks_count := 0, open_issues_count := 0, topics := []
    created_at := "2020", updated_at := "2024", pushed_at := none, size := 1
    default_branch := "main", archived := false, disabled := false
    isPrivate := false, fork := false, owner := ⟨"o", "User"⟩, license := none }

/-- A raw payload with the fresh id 2, served after the known one. -/
def wRawFresh : RawRepo :=
  { wRawKnown with id := 2, name := "repof", full_name := "o/repof" }

namespace Readme

/-- The start sentinel marker of `ReadmeUpdater`. -/
def startMarker : List Char := "<!-- GITHUB_STAR_MANAGER_START -->".data

/-- The end sentinel marker of `ReadmeUpdater`. -/
def endMarker : List Char := "<!-- GITHUB_STAR_MANAGER_END -->".data

/-- Index of the first occurrence of `pat`, modelling Python
`content.find(pat)` (`none` for -1). -/
def findSub (pat : List Char) : List Char → Option Nat
  | [] => if AIProc.startsWithCl pat [] then some 0 else none
  | l@(_ :: rest) =>
    if AIProc.startsWithCl pat l then some 0
    else (findSub pat rest).map (fun i => i + 1)

/-- Mirrors `ReadmeUpdater._find_update_section`: both markers found and
the end marker after the start marker yields the span from the start
marker through the end of the end marker; `(-1, -1)` becomes `none`. -/
def findUpdateSection (content : List Char) : Option (Nat × Nat) :=
  match findSub startMarker content, findSub endMarker content with
  | some s, some e => if s < e then some (s, e + endMarker.length) else none
  | _, _ => none

/-- The freshly rendered replacement block of `update_readme`
(`stats` is the rendered statistics section, an input here since its
generation reads the store and the clock). -/
def buildUpdateContent (stats : List Char) : List Char :=
  startMarker ++ ("\n<!-- 此部分内容由GitHub Star Manager自动生成和更新 -->\n\n".data)
    ++ stats ++ endMarker

/-- Mirrors `ReadmeUpdater.update_readme` on in-memory content: replace
the marked span when present, else append a newline-padded marked block
at the end. -/
def update_readme (content stats : List Char) : List Char :=
  match findUpdateSection content with
  | some (s, e) => content.take s ++ buildUpdateContent stats ++ content.drop e
  | none =>
    let content2 := if content.getLast? = some '\n' then content else content ++ ['\n']
    content2 ++ ['\n'] ++ buildUpdateContent stats ++ ['\n']

end Readme

namespace DocGen

/-- Decimal digit to its character. -/
def digitChar (d : Nat) : Char := Char.ofNat (48 + d)

/-- Fuelled decimal rendering accumulator (the fuel bounds the digit
count; `natChars` supplies `n + 1`, always sufficient). -/
def natCharsAux : Nat → Nat → List Char → List Char
  | 0, _, acc => acc
  | fuel + 1, n, acc =>
    if n < 10 then digitChar n :: acc
    else natCharsAux fuel (n / 10) (digitChar (n % 10) :: acc)

/-- Python `str(n)` / `f-string` rendering of a natural number. -/
def natChars (n : Nat) : List Char := natCharsAux (n + 1) n []

/-- Thousands grouping on a reversed digit list: after every three
digits that are followed by more, insert a comma. -/
def commaGroup : List Char → List Char
  | a :: b :: c :: d :: rest => a :: b :: c :: ',' :: commaGroup (d :: rest)
  | l => l

/-- Python `f"{n:,}"`: decimal rendering with thousands separators. -/
def commaFmtChars (n : Nat) : List Char :=
  (commaGroup (natChars n).reverse).reverse

/-- Rendering of `repo.get('description', '暂无描述')` inside an
f-string: for store records the key is always present, so a Python
`None` value renders as the text `None`. -/
def descText (r : StoreRepo) : List Char :=
  match r.description with
  | some d => d.data
  | none => "None".data

/-- Rendering of `repo.get('language', '未知')` (key always present in
store records; `None` renders as the text `None`). -/
def langText (r : StoreRepo) : List Char :=
  match r.language with
  | some s => s.data
  | none => "None".data

/-- The optional AI-summary line of `_format_repo_entry`:
`summary = repo.get('summary', description)` is the stored summary, and
the line is emitted when it is truthy and differs from the
description. -/
def summaryBlock (r : StoreRepo) : List Char :=
  match r.summary with
  | some s =>
    if s ≠ "" ∧ r.description ≠ some s then
      "**AI摘要**: ".data ++ s.data ++ "\n\n".data
    else []
  | none => []

/-- The optional key-features block of `_format_repo_entry`. -/
def featuresBlock (r : StoreRepo) : List Char :=
  if r.key_features = [] then []
  else
    "**关键特性**:\n".data
      ++ (r.key_features.map (fun f => "- ".data ++ f.data ++ "\n".data)).flatten
      ++ "\n".data

/-- The literal the change-detection regex anchors the star count on. -/
def starsMarker : List Char := "**星数**: ⭐ ".data

/-- The middle of a rendered entry: everything between the closing
parenthesis of the title link and the star marker. -/
def entryMiddle (r : StoreRepo) : List Char :=
  "\n\n**仓库**: ".data ++ r.full_name.data
    ++ "\n\n**描述**: ".data ++ descText r ++ "\n\n".data
    ++ summaryBlock r ++ featuresBlock r
    ++ "**语言**: ".data ++ langText r ++ " | ".data

/-- The part of a rendered entry the change-detection regex consumes:
title link, middle, star marker, and the comma-grouped star count. -/
def entryHead (r : StoreRepo) : List Char :=
  "### [".data ++ r.name.data ++ "](".data ++ r.html_url.data ++ ")".data
    ++ entryMiddle r ++ starsMarker ++ commaFmtChars r.stargazers_count

/-- The fixed tail of a rendered entry after the star count. -/
def entryTail : List Char := "\n\n---\n\n".data

/-- Mirrors `CategoryDocGenerator._format_repo_entry`. -/
def entryCl (r : StoreRepo) : List Char := entryHead r ++ entryTail

/-- The anchor of a TOC line: `name.lower().replace(' ', '-').replace('_', '-')`. -/
def anchorOf (name : String) : List Char :=
  name.data.map (fun c =>
    let lc := c.toLower
    if lc = ' ' ∨ lc = '_' then '-' else lc)

/-- The numbered TOC lines (`enumerate(repos, 1)`). -/
def tocLines : Nat → List StoreRepo → List Char
  | _, [] => []
  | i, r :: rest =>
    natChars i ++ ". [".data ++ r.name.data ++ "](#".data ++ anchorOf r.name
      ++ ")\n".data ++ tocLines (i + 1) rest

/-- Mirrors `CategoryDocGenerator._generate_category_toc`. -/
def tocCl (display : List StoreRepo) : List Char :=
  if display.isEmpty then []
  else "## 目录\n\n".data ++ tocLines 1 display ++ "\n---\n\n".data

/-- Mirrors `CategoryDocGenerator._generate_category_header` (the
`now` string is `datetime.now().strftime(...)`). -/
def headerCl (cat : String) (displayLen total : Nat) (now : String) : List Char :=
  "# ".data ++ cat.data ++ "\n\n".data
    ++ "本分类共有 **".data ++ natChars total ++ "** 个项目".data
    ++ (if displayLen < total then
          "，当前显示前 **".data ++ natChars displayLen ++ "** 个项目".data
        else [])
    ++ "。\n\n".data
    ++ "*最后更新时间: ".data ++ now.data ++ "*\n\n".data

/-- Mirrors `CategoryDocGenerator._generate_footer`. -/
def footerCl (cat : String) (total disp : Nat) (now : String) : List Char :=
  "## 统计信息\n\n".data
    ++ "- **分类**: ".data ++ cat.data ++ "\n".data
    ++ "- **总项目数**: ".data ++ natChars total ++ "\n".data
    ++ "- **显示项目数**: ".data ++ natChars disp ++ "\n".data
    ++ (if disp < total then
          "- **未显示项目数**: ".data ++ natChars (total - disp) ++ "\n".data
        else [])
    ++ "- **生成时间**: ".data ++ now.data ++ "\n\n".data
    ++ "---\n\n".data
    ++ "*本文档由 [GitHub Star Manager](https://github.com/your-username/github-star-manager) 自动生成*\n".data

/-- The sorted, truncated display list (`sorted(..., reverse=True)[:max]`). -/
def displayOf (repos : List StoreRepo) (maxProjects : Nat) : List StoreRepo :=
  (StoreMgr.sortDescBy (fun r => r.stargazers_count) repos).take maxProjects

/-- The document content `generate_category_document` writes. -/
def genContent (cat : String) (repos : List StoreRepo) (maxProjects : Nat)
    (now : String) : List Char :=
  let display := displayOf repos maxProjects
  headerCl cat display.length repos.length now
    ++ tocCl display
    ++ "## 项目列表\n\n".data
    ++ (display.map entryCl).flatten
    ++ footerCl cat repos.length display.length now

/-- One attempt of the total-count regex
`本分类共有 \*\*(\d+)\*\* 个项目` at the head of `l`. -/
def matchTotalAt (l : List Char) : Option Nat :=
  match ClassifyPy.matchChars "本分类共有 **".data l with
  | none => none
  | some r1 =>
    let p := r1.span Char.isDigit
    if p.1 = [] then none
    else
      match ClassifyPy.matchChars "** 个项目".data p.2 with
      | none => none
      | some _ => some (ClassifyPy.digitsToNat p.1)

/-- The regex search for the total count: first position where the
pattern matches. -/
def extractTotal : List Char → Option Nat
  | [] => none
  | l@(_ :: rest) =>
    match matchTotalAt l with
    | some n => some n
    | none => extractTotal rest

/-- Scan to (and through) the first occurrence of `stop`, returning the
nonempty segment before it and the rest after it (regex `[^x]+x`). -/
def untilAux (stop : Char) : List Char → Option (List Char × List Char)
  | [] => none
  | c :: rest =>
    if c = stop then some ([], rest)
    else (untilAux stop rest).map (fun p => (c :: p.1, p.2))

/-- Nonempty-segment variant of `untilAux` (regex `[^x]+` then `x`). -/
def takeUntil (stop : Char) (l : List Char) : Option (List Char × List Char) :=
  match untilAux stop l with
  | some (seg, r) => if seg = [] then none else some (seg, r)
  | none => none

/-- One attempt of the entry regex
`### \[([^\]]+)\]\([^\)]+\).*?\*\*星数\*\*: ⭐ ([\d,]+)` (DOTALL) at
the head of `l`, returning the captured name, the parsed star count
(commas stripped, as `int(stars.replace(',', ''))`), and the rest of
the text after the match.  The lazy `.*?` is resolved as the first
following occurrence of the star marker, which in generated documents
is always followed by digits. -/
def headEntry (l : List Char) : Option ((List Char × Nat) × List Char) :=
  match ClassifyPy.matchChars "### [".data l with
  | none => none
  | some r1 =>
    match takeUntil ']' r1 with
    | none => none
    | some (nm, r2) =>
      match r2 with
      | [] => none
      | c2 :: r3 =>
        if c2 = '(' then
          match takeUntil ')' r3 with
          | none => none
          | some (_, r4) =>
            match ClassifyPy.splitAfterFirst starsMarker r4 with
            | none => none
            | some r5 =>
              let p := r5.span (fun c => c.isDigit || c = ',')
              if p.1 = [] then none
              else some ((nm, ClassifyPy.digitsToNat (p.1.filter (fun c => c ≠ ','))), p.2)
        else none

/-- Fuelled `findall` scan: try the entry regex at each position, and
continue after the end of each match. -/
def scanF : Nat → List Char → List (List Char × Nat)
  | 0, _ => []
  | _ + 1, [] => []
  | fuel + 1, l@(_ :: rest) =>
    match headEntry l with
    | some (p, remaining) => p :: scanF fuel remaining
    | none => scanF fuel rest

/-- All matches of the entry regex (`repo_pattern.findall`). -/
def scanEntries (l : List Char) : List (List Char × Nat) :=
  scanF l.length l

/-- Python dict built from the scanned pairs (`existing_repos[name] =
stars`, later pairs overwriting earlier ones), looked up by name. -/
def lookupLast (pairs : List (List Char × Nat)) (name : List Char) : Option Nat :=
  (pairs.reverse.find? (fun p => p.1 = name)).map (fun p => p.2)

/-- Mirrors `CategoryDocGenerator._check_document_needs_update` on the
file content (`none` models a missing file): count check, displayed-pair
count check, then the per-repo name/star comparison.  The Python
try/except returning `True` on error corresponds to no path here since
the scanners are total. -/
def needs_update (file : Option (List Char)) (repos : List StoreRepo)
    (maxProjects : Nat) : Bool :=
  match file with
  | none => true
  | some content =>
    match extractTotal content with
    | none => true
    | some oldTotal =>
      if oldTotal ≠ repos.length then true
      else
        let pairs := scanEntries content
        if pairs.length ≠ min repos.length maxProjects then true
        else
          let display := displayOf repos maxProjects
          display.any (fun r =>
            lookupLast pairs r.name.data ≠ some r.stargazers_count)

/-- Mirrors `CategoryDocGenerator.generate_category_document` on the
category's repository list and the on-disk file content: an empty list
returns failure; an unchanged document is skipped (success, file
untouched); otherwise the freshly rendered content is written. -/
def generate_category_document (cat : String) (repos : List StoreRepo)
    (maxProjects : Nat) (now : String) (file : Option (List Char)) :
    Bool × Option (List Char) :=
  if repos.isEmpty then (false, file)
  else if needs_update file repos maxProjects then
    (true, some (genContent cat repos maxProjects now))
  else (true, file)

/-- Well-formedness of one displayed record for the scan-back: nonempty
name without a closing bracket, nonempty URL without a closing
parenthesis, and a middle free of the star marker (also across its
boundary, hence the `dropLast` padding). -/
def entryOk (r : StoreRepo) : Bool :=
  !r.name.data.isEmpty && !(r.name.data.contains ']')
    && !r.html_url.data.isEmpty && !(r.html_url.data.contains ')')
    && !(AIProc.occursCl starsMarker (entryMiddle r ++ starsMarker.dropLast))

/-- The document region before the first entry. -/
def preRegion (cat : String) (repos : List StoreRepo) (maxProjects : Nat)
    (now : String) : List Char :=
  headerCl cat (displayOf repos maxProjects).length repos.length now
    ++ tocCl (displayOf repos maxProjects)
    ++ "## 项目列表\n\n".data

/-- The document region after the last entry. -/
def footRegion (cat : String) (repos : List StoreRepo) (maxProjects : Nat)
    (now : String) : List Char :=
  footerCl cat repos.length (displayOf repos maxProjects).length now

/-- A repository pair sharing one name with different star counts (the
C7 counterexample: the scanned name-to-stars dict collapses them). -/
def dupRepoA : StoreRepo :=
  { wExisting1 with
    id := 11
    name := "dup"
    full_name := "a/dup"
    stargazers_count := 5 }

/-- The second same-named repository. -/
def dupRepoB : StoreRepo :=
  { wExisting1 with
    id := 12
    name := "dup"
    full_name := "b/dup"
    stargazers_count := 3 }

/-- A clean single repository for the C7 witness. -/
def cleanRepo : StoreRepo :=
  { id := 21, name := "alpha", full_name := "o/alpha", description := some "d"
    html_url := "https://github.com/o/alpha", language := some "Go"
    stargazers_count := 1234, forks_count := 0, topics := []
    starred_at := "2024-01-01", is_classified := true
    category := some "开发工具", summary := some "sum"
    key_features := ["f1"] }

end DocGen

end StarMgr

section MergeTheorems

open StarMgr StarMgr.StoreMgr

theorem lastIdxOf_lt {l : List StoreRepo} {rid i : Nat}
    (h : lastIdxOf l rid = some i) : i < l.length := by
  induction l generalizing i with
  | nil => simp [lastIdxOf] at h
  | cons r rest ih =>
    cases h' : lastIdxOf rest rid with
    | some j =>
      simp only [lastIdxOf, h'] at h
      obtain rfl : j + 1 = i := by simpa using h
      exact Nat.succ_lt_succ (ih h')
    | none =>
      simp only [lastIdxOf, h'] at h
      by_cases hr : r.id = rid
      · simp only [hr, if_pos rfl] at h
        obtain rfl : (0 : Nat) = i := by simpa using h
        simp
      · simp [hr] at h

theorem lastIdxOf_getElem {l : List StoreRepo} {rid i : Nat}
    (h : lastIdxOf l rid = some i) : ∃ r, l[i]? = some r ∧ r.id = rid := by
  induction l generalizing i with
  | nil => simp [lastIdxOf] at h
  | cons r rest ih =>
    cases h' : lastIdxOf rest rid with
    | some j =>
      simp only [lastIdxOf, h'] at h
      obtain rfl : j + 1 = i := by simpa using h
      obtain ⟨x, hx, hid⟩ := ih h'
      exact ⟨x, by simpa using hx, hid⟩
    | none =>
      simp only [lastIdxOf, h'] at h
      by_cases hr : r.id = rid
      · simp only [hr, if_pos rfl] at h
        obtain rfl : (0 : Nat) = i := by simpa using h
        exact ⟨r, by simp, hr⟩
      · simp [hr] at h

theorem lastIdxOf_inj {l : List StoreRepo} {rid₁ rid₂ i : Nat}
    (h₁ : lastIdxOf l rid₁ = some i) (h₂ : lastIdxOf l rid₂ = some i) :
    rid₁ = rid₂ := by
  obtain ⟨r, hr, hid⟩ := lastIdxOf_getElem h₁
  obtain ⟨r', hr', hid'⟩ := lastIdxOf_getElem h₂
  have he : r = r' := by rw [hr] at hr'; exact Option.some.inj hr'
  rw [← hid, ← hid', he]

theorem lastIdxOf_eq_none_iff {l : List StoreRepo} {rid : Nat} :
    lastIdxOf l rid = none ↔ ∀ r ∈ l, r.id ≠ rid := by
  induction l with
  | nil => simp [lastIdxOf]
  | cons r rest ih =>
    cases h' : lastIdxOf rest rid with
    | some j =>
      obtain ⟨x, hx, hid⟩ := lastIdxOf_getElem h'
      have hxmem : x ∈ rest := by
        have := List.getElem?_eq_some_iff.mp hx
        obtain ⟨hlt, he⟩ := this
        exact he ▸ List.getElem_mem hlt
      simp only [lastIdxOf, h']
      constructor
      · intro h; cases h
      · intro hall
        exact absurd hid (hall x (List.mem_cons_of_mem _ hxmem))
    | none =>
      have hrest : ∀ x ∈ rest, x.id ≠ rid := ih.mp h'
      simp only [lastIdxOf, h', List.forall_mem_cons]
      by_cases hr : r.id = rid
      · simp [hr]
      · constructor
        · intro _; exact ⟨hr, hrest⟩
        · intro _; simp [hr]

theorem lastIdxOf_of_nodup {l : List StoreRepo}
    (hnd : (l.map StoreRepo.id).Nodup) {i : Nat} {r : StoreRepo}
    (hg : l[i]? = some r) : lastIdxOf l r.id = some i := by
  induction l generalizing i with
  | nil => simp at hg
  | cons x rest ih =>
    rw [List.map_cons, List.nodup_cons] at hnd
    cases i with
    | zero =>
      have hx : x = r := by simpa using hg
      have hnone : lastIdxOf rest x.id = none :=
        lastIdxOf_eq_none_iff.mpr (fun y hy he =>
          hnd.1 (he ▸ List.mem_map_of_mem StoreRepo.id hy))
      rw [← hx]
      simp [lastIdxOf, hnone]
    | succ j =>
      have hg' : rest[j]? = some r := by simpa using hg
      have := ih hnd.2 hg'
      simp [lastIdxOf, this]

theorem mergeAux_drop (existing : List StoreRepo) :
    ∀ (rest merged : List StoreRepo), existing.length ≤ merged.length →
      (mergeAux existing merged rest).drop existing.length
        = merged.drop existing.length
          ++ rest.filter (fun n => lastIdxOf existing n.id = none) := by
  intro rest
  induction rest with
  | nil => intro merged _; simp [mergeAux]
  | cons n rest ih =>
    intro merged hlen
    cases h' : lastIdxOf existing n.id with
    | some j =>
      have hj : j < existing.length := lastIdxOf_lt h'
      simp only [mergeAux, h']
      rw [ih _ (by simpa using hlen), List.drop_set_of_lt _ _ hj]
      simp [List.filter_cons, h']
    | none =>
      simp only [mergeAux, h']
      rw [ih _ (le_trans hlen (by simp)), List.drop_append_of_le_length hlen]
      simp [List.filter_cons, h']

theorem mergeAux_getElem_of_not_touched (existing : List StoreRepo) :
    ∀ (rest merged : List StoreRepo) (i : Nat), i < merged.length →
      (∀ n ∈ rest, lastIdxOf existing n.id ≠ some i) →
      (mergeAux existing merged rest)[i]? = merged[i]? := by
  intro rest
  induction rest with
  | nil => intro merged i _ _; simp [mergeAux]
  | cons n rest ih =>
    intro merged i hi hno
    cases h' : lastIdxOf existing n.id with
    | some j =>
      have hji : j ≠ i := fun e => hno n (List.mem_cons_self _ _) (e ▸ h')
      simp only [mergeAux, h']
      rw [ih _ _ (by simpa using hi) (fun m hm => hno m (List.mem_cons_of_mem _ hm))]
      exact List.getElem?_set_ne hji
    | none =>
      simp only [mergeAux, h']
      rw [ih _ _ (by simp; omega) (fun m hm => hno m (List.mem_cons_of_mem _ hm))]
      exact List.getElem?_append_left hi

theorem mergeAux_getElem_merged (existing : List StoreRepo) :
    ∀ (rest merged : List StoreRepo) (i : Nat) (n e : StoreRepo),
      (rest.map StoreRepo.id).Nodup → n ∈ rest →
      lastIdxOf existing n.id = some i → merged[i]? = some e →
      (mergeAux existing merged rest)[i]? = some (mergeRecord n e) := by
  intro rest
  induction rest with
  | nil => intro _ _ _ _ _ hmem; simp at hmem
  | cons m rest ih =>
    intro merged i n e hnd hmem h' hg
    have hi : i < merged.length := (List.getElem?_eq_some_iff.mp hg).1
    rw [List.map_cons, List.nodup_cons] at hnd
    rcases List.mem_cons.mp hmem with rfl | hmem'
    · simp only [mergeAux, h']
      rw [mergeAux_getElem_of_not_touched existing rest _ i (by simpa using hi)
        (fun x hx e' => hnd.1 ((lastIdxOf_inj e' h') ▸ List.mem_map_of_mem StoreRepo.id hx))]
      rw [List.getElem?_set_self (by simpa using hi), hg]
      rfl
    · have hmn : m.id ≠ n.id := fun e' =>
        hnd.1 (e' ▸ List.mem_map_of_mem StoreRepo.id hmem')
      cases h'' : lastIdxOf existing m.id with
      | some j =>
        have hji : j ≠ i := fun e' => hmn (lastIdxOf_inj (e' ▸ h'') h')
        simp only [mergeAux, h'']
        exact ih _ i n e hnd.2 hmem' h' ((List.getElem?_set_ne hji).trans hg)
      | none =>
        simp only [mergeAux, h'']
        exact ih _ i n e hnd.2 hmem' h' ((List.getElem?_append_left hi).trans hg)

/-- C1: in `DataManager.merge_repositories`, a record whose id occurs in
both lists keeps its position and takes descriptive fields from the
incoming record while `is_classified`, `category`, `summary` and
`key_features` are preserved from the existing record; records whose id
occurs only in the incoming list are appended, in order, after the
existing records. -/
theorem merge_repositories_spec
    (existing new : List StoreRepo)
    (hE : (existing.map StoreRepo.id).Nodup)
    (hN : (new.map StoreRepo.id).Nodup) :
    (∀ (i : Nat) (hi : i < existing.length), ∀ n ∈ new,
       n.id = existing[i].id →
       ∃ m, (merge_repositories existing new)[i]? = some m ∧
         m.stargazers_count = n.stargazers_count ∧
         m.description = n.description ∧
         m.topics = n.topics ∧
         m.language = n.language ∧
         m.is_classified = existing[i].is_classified ∧
         m.category = existing[i].category ∧
         m.summary = existing[i].summary ∧
         m.key_features = existing[i].key_features) ∧
    (merge_repositories existing new).drop existing.length
      = new.filter (fun n => ∀ e ∈ existing, e.id ≠ n.id) := by
  constructor
  · intro i hi n hn hid
    have hlast : lastIdxOf existing n.id = some i := by
      rw [hid]
      exact lastIdxOf_of_nodup hE (by simp [hi])
    refine ⟨mergeRecord n existing[i],
      mergeAux_getElem_merged existing new existing i n existing[i] hN hn hlast (by simp [hi]),
      rfl, rfl, rfl, rfl, rfl, rfl, rfl, rfl⟩
  · rw [merge_repositories, mergeAux_drop existing new existing (le_refl _),
      List.drop_length, List.nil_append]
    exact List.filter_congr (fun n _ => decide_eq_decide.mpr lastIdxOf_eq_none_iff)

/-- Witness for C1 at a concrete store: the merged record with id 1 takes
stars 42 from the incoming list but keeps the existing classification,
and the fresh id 2 is appended after the existing records. -/
theorem merge_repositories_spec_witness :
    ∃ m, (merge_repositories [wExisting1] [wIncoming1, wIncoming2])[0]? = some m ∧
      m.stargazers_count = 42 ∧ m.is_classified = true ∧
      m.category = some "开发工具" ∧ m.summary = some "a summary" ∧
      (merge_repositories [wExisting1] [wIncoming1, wIncoming2]).drop 1 = [wIncoming2] := by
  have h := merge_repositories_spec [wExisting1] [wIncoming1, wIncoming2]
    (by decide) (by decide)
  obtain ⟨m, hm, hs, -, -, -, hc, hcat, hsum, -⟩ :=
    h.1 0 (by decide) wIncoming1 (by simp) (by decide)
  refine ⟨m, hm, by rw [hs]; rfl, by rw [hc]; rfl, by rw [hcat]; rfl,
    by rw [hsum]; rfl, ?_⟩
  have h2 := h.2
  simp only [List.length_singleton] at h2
  rw [h2]
  decide

end MergeTheorems

section LoadStatsTheorems

open StarMgr StarMgr.StoreMgr

/-- C4: `DataManager.load_data` is total over every modelled file-system
state and never raises: a missing data file yields the freshly
initialized empty structure (zero counts, empty repository list), a
corrupt data file yields the parsed backup when the backup parses, and
the empty structure otherwise. -/
theorem load_data_total_spec (dataFile backupFile : FileState) :
    (dataFile = FileState.missing →
       load_data dataFile backupFile = createEmptyDataStructure) ∧
    (∀ d, dataFile = FileState.corrupt → backupFile = FileState.valid d →
       load_data dataFile backupFile = d) ∧
    (dataFile = FileState.corrupt → (∀ d, backupFile ≠ FileState.valid d) →
       load_data dataFile backupFile = createEmptyDataStructure) := by
  refine ⟨?_, ?_, ?_⟩
  · rintro rfl; rfl
  · rintro d rfl rfl; rfl
  · rintro rfl hb
    cases backupFile with
    | missing => rfl
    | corrupt => rfl
    | valid d => exact absurd rfl (hb d)

/-- Witness for C4: a corrupt data file next to a parseable backup loads
the backup, and a missing data file loads the empty structure. -/
theorem load_data_total_spec_witness :
    load_data FileState.corrupt
        (FileState.valid ⟨createEmptyDataStructure.metadata, [wExisting1]⟩)
      = ⟨createEmptyDataStructure.metadata, [wExisting1]⟩ ∧
    load_data FileState.missing FileState.corrupt = createEmptyDataStructure := by
  constructor
  · exact (load_data_total_spec FileState.corrupt
      (FileState.valid ⟨createEmptyDataStructure.metadata, [wExisting1]⟩)).2.1 _ rfl rfl
  · exact (load_data_total_spec FileState.missing FileState.corrupt).1 rfl

/-- C9: `DataManager.get_statistics` is total and guards every division:
on an empty repository list the classification rate and the average,
maximum and minimum star counts are all 0, and in every case the
unclassified count equals total minus classified. -/
theorem get_statistics_safe_spec (data : StoreData) :
    (data.repositories = [] →
       (get_statistics data).basic.classification_rate = 0 ∧
       (get_statistics data).stars.average = 0 ∧
       (get_statistics data).stars.maximum = 0 ∧
       (get_statistics data).stars.minimum = 0) ∧
    (get_statistics data).basic.unclassified_repositories
      = (get_statistics data).basic.total_repositories
        - (get_statistics data).basic.classified_repositories := by
  constructor
  · intro h
    simp [get_statistics, h, roundTo2]
  · rfl

/-- Witness for C9 on the empty store. -/
theorem get_statistics_safe_spec_witness :
    (get_statistics createEmptyDataStructure).basic.classification_rate = 0 ∧
    (get_statistics createEmptyDataStructure).stars.average = 0 ∧
    (get_statistics createEmptyDataStructure).stars.maximum = 0 ∧
    (get_statistics createEmptyDataStructure).stars.minimum = 0 ∧
    (get_statistics createEmptyDataStructure).basic.unclassified_repositories
      = (get_statistics createEmptyDataStructure).basic.total_repositories
        - (get_statistics createEmptyDataStructure).basic.classified_repositories := by
  have h := get_statistics_safe_spec createEmptyDataStructure
  obtain ⟨h1, h2, h3, h4⟩ := h.1 rfl
  exact ⟨h1, h2, h3, h4, h.2⟩

/-- C10: `DataManager.get_repositories_by_category` returns exactly the
records whose `category` equals the requested name and whose
`is_classified` flag is set; an unclassified record is never returned. -/
theorem get_repositories_by_category_spec
    (data : StoreData) (category : String) (r : StoreRepo) :
    (r ∈ get_repositories_by_category category data ↔
       r ∈ data.repositories ∧ r.category = some category ∧ r.is_classified = true) ∧
    (r.is_classified = false → r ∉ get_repositories_by_category category data) := by
  constructor
  · simp [get_repositories_by_category, List.mem_filter, and_assoc]
  · intro hf hmem
    simp [get_repositories_by_category, List.mem_filter, hf] at hmem

/-- Witness for C10: a classified record of the category is returned,
and a matching but unclassified record is not. -/
theorem get_repositories_by_category_spec_witness :
    wExisting1 ∈ get_repositories_by_category "开发工具"
        ⟨createEmptyDataStructure.metadata,
          [wExisting1, { wIncoming1 with category := some "开发工具" }]⟩ ∧
    { wIncoming1 with category := some "开发工具" } ∉ get_repositories_by_category "开发工具"
        ⟨createEmptyDataStructure.metadata,
          [wExisting1, { wIncoming1 with category := some "开发工具" }]⟩ := by
  constructor
  · exact (get_repositories_by_category_spec _ "开发工具" wExisting1).1.mpr
      ⟨by simp, by decide, by decide⟩
  · exact (get_repositories_by_category_spec _ "开发工具" _).2 (by decide)

end LoadStatsTheorems

section AIProcTheorems

open StarMgr AIProc

theorem callAux_allRateLimited (maxRetries : Nat) :
    ∀ (r attempt : Nat),
      callAux (fun _ => AIOutcome.status 429) maxRetries attempt r = (none, r) := by
  intro r
  induction r with
  | zero => intro attempt; rfl
  | succ r ih => intro attempt; simp [callAux, ih]

/-- C3: against an endpoint answering HTTP 429 on every request,
`classify_repository` issues exactly `max_retries` HTTP attempts, then
returns the heuristic keyword classification (cached), and — being a
total function of the modelled outcomes — propagates no exception to
its caller. -/
theorem classify_repository_rate_limit_spec
    (apiKey : String) (categories : List String) (maxRetries : Nat)
    (cache : List (String × String)) (repo : StoreRepo)
    (hkey : apiKey ≠ "")
    (hmiss : cache.find? (fun p => p.1 = cacheKey repo) = none) :
    classify_repository apiKey categories maxRetries
        (fun _ => AIOutcome.status 429) cache repo
      = (heuristic_classify repo, maxRetries,
         (cacheKey repo, heuristic_classify repo) :: cache) := by
  simp [classify_repository, hmiss, if_neg hkey, callGithubAI,
    callAux_allRateLimited]

/-- Witness for C3: with 3 retries and an always-429 endpoint, a
keyword-free repository ends up heuristically classified as `其他`
after exactly 3 attempts. -/
theorem classify_repository_rate_limit_spec_witness :
    classify_repository "key" defaultCategories 3
        (fun _ => AIOutcome.status 429) [] wIncoming2
      = ("其他", 3, [("classify_2", "其他")]) := by
  have h := classify_repository_rate_limit_spec "key" defaultCategories 3 [] wIncoming2
    (by decide) rfl
  rw [h]
  decide

theorem heuristicFromText_mem (t : String) :
    heuristicFromText t ∈ defaultCategories := by
  unfold heuristicFromText
  cases hfind : heuristicTable.find? (fun p => anyKeyword p.1 t) with
  | none => decide
  | some p =>
    have hp : p ∈ heuristicTable := List.mem_of_find?_eq_some hfind
    have : ∀ q ∈ heuristicTable, q.2 ∈ defaultCategories := by decide
    exact this p hp

theorem heuristic_classify_mem (r : StoreRepo) :
    heuristic_classify r ∈ defaultCategories :=
  heuristicFromText_mem (heuristicText r)

/-- C6 (amended part): every classification produced by
`AIProcessor.classify_repository` under the configured category
enumeration of `config.py` — whether a validated AI answer, a fuzzy
substring match against the enumeration, or the heuristic keyword
fallback — is a member of that enumeration. -/
theorem classify_repository_category_mem
    (apiKey : String) (maxRetries : Nat) (resp : Nat → AIOutcome)
    (cache : List (String × String)) (repo : StoreRepo)
    (hmiss : cache.find? (fun p => p.1 = cacheKey repo) = none) :
    (classify_repository apiKey defaultCategories maxRetries resp cache repo).1
      ∈ defaultCategories := by
  simp only [classify_repository, hmiss]
  by_cases hk : apiKey = ""
  · simp [hk, heuristic_classify_mem]
  · simp only [if_neg hk]
    cases hcall : (callGithubAI apiKey resp maxRetries).1 with
    | none => simp [hcall, heuristic_classify_mem]
    | some s =>
      simp only [hcall]
      by_cases hmem : s.trim ∈ defaultCategories
      · simp [hmem]
      · simp only [if_neg hmem]
        cases hfind : defaultCategories.find? (fun c =>
            strOccurs (lowerStr s.trim) (lowerStr c)
              || strOccurs (lowerStr c) (lowerStr s.trim)) with
        | some c =>
          simp only [hfind]
          simpa using List.mem_of_find?_eq_some hfind
        | none => simp [hfind, heuristic_classify_mem]

/-- Witness for the amended part of C6 at a concrete repository and a
concrete (fuzzily matching) AI answer. -/
theorem classify_repository_category_mem_witness :
    (classify_repository "key" defaultCategories 3
        (fun _ => AIOutcome.success "工具") [] wIncoming2).1 ∈ defaultCategories := by
  exact classify_repository_category_mem "key" 3 (fun _ => AIOutcome.success "工具")
    [] wIncoming2 rfl

end AIProcTheorems


section ClassifyPyTheorems

open StarMgr StarMgr.ClassifyPy

/-- C5 counterexample: on a text holding two separate JSON objects, the
code's third strategy (first opening brace to last closing brace) fails
to parse and yields the fallback object, while the spec's described
strategy (first balanced brace span) parses the first object — so the
extractor does not implement the spec's three-strategy description. -/
theorem parse_ai_response_balanced_span_cex :
    parse_ai_response twoObjectsText = defaultAIResult ∧
    specDescribedExtract twoObjectsText = Json.obj [("x", Json.num 1)] ∧
    parse_ai_response twoObjectsText ≠ specDescribedExtract twoObjectsText := by
  refine ⟨rfl, rfl, ?_⟩
  intro h
  have hc := congrArg objFieldCount h
  rw [show objFieldCount (parse_ai_response twoObjectsText) = 3 from rfl,
      show objFieldCount (specDescribedExtract twoObjectsText) = 1 from rfl] at hc
  exact absurd hc (by decide)

/-- C5 (amended): the extractor tries (a) whole-text JSON first — any
text that parses as a whole is returned as parsed — then (b) the fenced
json block, then (c) the substring from the first opening brace to the
last closing brace; on the spec's literal fenced example it returns
exactly the expected object. -/
theorem parse_ai_response_spec (r : String) (v : Json)
    (h : jsonLoads r = some v) :
    parse_ai_response r = v ∧
    parse_ai_response exampleFencedText = exampleFencedResult := by
  constructor
  · simp [parse_ai_response, h]
  · rfl

/-- Witness for C5's amended theorem at a concrete whole-text parse. -/
theorem parse_ai_response_spec_witness :
    parse_ai_response "\x7b\"a\": 1\x7d" = Json.obj [("a", Json.num 1)] ∧
    parse_ai_response exampleFencedText = exampleFencedResult :=
  parse_ai_response_spec "\x7b\"a\": 1\x7d" (Json.obj [("a", Json.num 1)]) rfl

/-- C6 counterexample: `process_repo` in `classify.py` copies the parsed
AI category into the record without validating it against the configured
enumeration, so a classified record can carry a category outside the
enumeration. -/
theorem process_repo_category_unvalidated_cex :
    process_repo_category rogueCategoryResponse = Except.ok (Json.str "神秘分类") ∧
    "神秘分类" ∉ AIProc.defaultCategories :=
  ⟨rfl, by decide⟩

end ClassifyPyTheorems

section FetcherTheorems

open StarMgr StarMgr.StoreMgr StarMgr.Fetcher

/-- C2 counterexample: in incremental mode with a store already holding
the repository with id 1, the fetcher still returns that repository
(and keeps paging past it to id 2): it never compares page items
against the store's known ids and has no early exit on known items. -/
theorem fetch_incremental_refetches_known_cex :
    (fetch_starred_repos ⟨100, 10⟩
        (fun _ p => if p = 1 then some [wRawKnown, wRawFresh] else some [])
        (FileState.valid wFetchStoreData) "incremental" "T").map (fun r => r.id)
      = [1, 2] ∧
    1 ∈ wFetchStoreData.repositories.map StoreRepo.id :=
  ⟨rfl, by decide⟩

/-- C2 (amended): in incremental mode the fetcher only reads
`metadata.last_fetch_time` from the existing data file (passed to the
HTTP layer as the `since` parameter) and caps the fetch at
`max_incremental_fetch`; the result is independent of which
repositories the store already holds, so already-known items are
fetched again rather than stopping the paging. -/
theorem fetch_starred_repos_incremental_spec
    (cfg : FetchConfig) (resp : Option String → Nat → Option (List RawRepo))
    (md : Metadata) (reposA reposB : List StoreRepo) (now : String) :
    fetch_starred_repos cfg resp (FileState.valid ⟨md, reposA⟩) "incremental" now
      = fetch_starred_repos cfg resp (FileState.valid ⟨md, reposB⟩) "incremental" now ∧
    fetch_starred_repos cfg resp (FileState.valid ⟨md, reposA⟩) "incremental" now
      = fetchLoop (resp md.last_fetch_time) cfg.max_incremental_fetch now
          (cfg.max_incremental_fetch + 1) 1 [] :=
  ⟨rfl, rfl⟩

end FetcherTheorems

section ReadmeTheorems

open StarMgr StarMgr.Readme

/-- C8: when the start sentinel occurs before the end sentinel,
`update_readme` replaces exactly the span from the start marker through
the end marker with the freshly rendered block, leaving every character
before the start marker and after the end marker unchanged; when either
marker is absent, the original content is preserved in full (up to a
terminating newline) and a new marked block is appended at the end. -/
theorem update_readme_frame_spec (content stats : List Char) :
    (∀ i j, findSub startMarker content = some i →
       findSub endMarker content = some j → i < j →
       update_readme content stats
         = content.take i ++ buildUpdateContent stats
             ++ content.drop (j + endMarker.length)) ∧
    ((findSub startMarker content = none ∨ findSub endMarker content = none) →
     ∃ pad, (pad = [] ∨ pad = ['\n']) ∧
       update_readme content stats
         = content ++ pad ++ ['\n'] ++ buildUpdateContent stats ++ ['\n']) := by
  constructor
  · intro i j hi hj hlt
    simp [update_readme, findUpdateSection, hi, hj, hlt]
  · intro h
    have hnone : findUpdateSection content = none := by
      rcases h with h | h
      · simp [findUpdateSection, h]
      · cases hs : findSub startMarker content <;> simp [findUpdateSection, h, hs]
    by_cases hl : content.getLast? = some '\n'
    · exact ⟨[], Or.inl rfl, by simp [update_readme, hnone, hl]⟩
    · exact ⟨['\n'], Or.inr rfl, by simp [update_readme, hnone, hl]⟩

/-- Witness for C8: a marked README has exactly its marked span
replaced; a marker-free README is preserved and gets the block
appended. -/
theorem update_readme_frame_spec_witness :
    update_readme (('A' :: startMarker) ++ 'B' :: endMarker ++ ['C']) "S".data
      = ['A'] ++ buildUpdateContent "S".data ++ ['C'] ∧
    ∃ pad, (pad = [] ∨ pad = ['\n']) ∧
      update_readme "no markers".data "S".data
        = "no markers".data ++ pad ++ ['\n'] ++ buildUpdateContent "S".data ++ ['\n'] := by
  constructor
  · have h := (update_readme_frame_spec
        (('A' :: startMarker) ++ 'B' :: endMarker ++ ['C']) "S".data).1
      1 36 (by decide) (by decide) (by decide)
    rw [h]
    decide
  · exact (update_readme_frame_spec "no markers".data "S".data).2
      (Or.inl (by decide))

end ReadmeTheorems


section DocGenTheorems

open StarMgr StarMgr.DocGen StarMgr.ClassifyPy StarMgr.AIProc

theorem matchChars_append_self (p x : List Char) :
    matchChars p (p ++ x) = some x := by
  induction p with
  | nil => rfl
  | cons c cs ih => simp [matchChars, ih]

theorem matchChars_eq_some_iff {p l r : List Char} :
    matchChars p l = some r ↔ l = p ++ r := by
  constructor
  · intro h
    induction p generalizing l with
    | nil =>
      simp only [matchChars] at h
      simp [Option.some.inj h]
    | cons c cs ih =>
      cases l with
      | nil => simp [matchChars] at h
      | cons d ds =>
        by_cases hcd : c = d
        · subst hcd
          simp only [matchChars, if_pos rfl] at h
          simp [ih h]
        · simp [matchChars, hcd] at h
  · intro h
    subst h
    exact matchChars_append_self p r

theorem startsWithCl_iff {p l : List Char} :
    startsWithCl p l = true ↔ ∃ t, l = p ++ t := by
  induction p generalizing l with
  | nil => simp [startsWithCl]
  | cons c cs ih =>
    cases l with
    | nil => simp [startsWithCl]
    | cons d ds =>
      simp only [startsWithCl, Bool.and_eq_true, decide_eq_true_eq, ih]
      constructor
      · rintro ⟨rfl, t, rfl⟩; exact ⟨t, rfl⟩
      · rintro ⟨t, h⟩
        injection h with h1 h2
        exact ⟨h1.symm, t, h2⟩

theorem occursCl_cons_false {p : List Char} {c : Char} {rest : List Char}
    (h : occursCl p (c :: rest) = false) :
    startsWithCl p (c :: rest) = false ∧ occursCl p rest = false := by
  simpa [occursCl, Bool.or_eq_false_iff] using h

theorem occurs_of_suffix_starts {p t a : List Char}
    (hsuf : t <:+ a) (hst : startsWithCl p t = true) :
    occursCl p a = true := by
  induction a with
  | nil =>
    have : t = [] := List.eq_nil_of_suffix_nil hsuf
    subst this
    cases p with
    | nil => rfl
    | cons c cs => simp [startsWithCl] at hst
  | cons c rest ih =>
    rcases List.suffix_cons_iff.mp hsuf with rfl | h
    · simp [occursCl, hst]
    · simp [occursCl, ih h]

theorem splitAfterFirst_exact {p : List Char} (x y : List Char)
    (hp : p ≠ [])
    (hocc : occursCl p (x ++ p.dropLast) = false) :
    splitAfterFirst p (x ++ (p ++ y)) = some y := by
  induction x with
  | nil =>
    cases p with
    | nil => exact absurd rfl hp
    | cons q qs =>
      have hm : matchChars (q :: qs) (q :: (qs ++ y)) = some y := by
        simpa using matchChars_append_self (q :: qs) y
      simp [splitAfterFirst, hm]
  | cons c x' ih =>
    have hocc' := occursCl_cons_false (by simpa using hocc)
    have hmc : matchChars p ((c :: x') ++ (p ++ y)) = none := by
      cases hm : matchChars p ((c :: x') ++ (p ++ y)) with
      | none => rfl
      | some r =>
        have heq : (c :: x') ++ (p ++ y) = p ++ r := matchChars_eq_some_iff.mp hm
        have hpre : p <+: (c :: x') ++ (p ++ y) := ⟨r, heq.symm⟩
        have hpre2 : (c :: x') ++ p.dropLast <+: (c :: x') ++ (p ++ y) := by
          refine List.prefix_append_right_inj (c :: x') |>.mpr ?_
          exact List.IsPrefix.trans (List.dropLast_eq_take p ▸ List.take_prefix _ p)
            (List.prefix_append p y)
        have hlen : p.length ≤ ((c :: x') ++ p.dropLast).length := by
          have hp1 : 1 ≤ p.length := by
            cases p with
            | nil => exact absurd rfl hp
            | cons _ _ => simp
          simp only [List.length_append, List.length_cons, List.length_dropLast]
          omega
        have : p <+: (c :: x') ++ p.dropLast :=
          List.prefix_of_prefix_length_le hpre hpre2 hlen
        have hsw : startsWithCl p ((c :: x') ++ p.dropLast) = true := by
          rw [startsWithCl_iff]
          obtain ⟨t, ht⟩ := this
          exact ⟨t, ht.symm⟩
        exact absurd (hocc'.1.symm.trans hsw) (by decide)
    have hstep : splitAfterFirst p ((c :: x') ++ (p ++ y))
        = splitAfterFirst p (x' ++ (p ++ y)) := by
      cases p with
      | nil => exact absurd rfl hp
      | cons q qs =>
        have hmc2 : matchChars (q :: qs) (c :: (x' ++ q :: (qs ++ y))) = none := by
          simpa using hmc
        simp [splitAfterFirst, hmc2]
    rw [hstep]
    exact ih hocc'.2

theorem takeWhile_exact {q : Char → Bool} (a : List Char) (b : Char) (rest : List Char)
    (ha : ∀ c ∈ a, q c = true) (hb : q b = false) :
    (a ++ b :: rest).takeWhile q = a := by
  induction a with
  | nil => simp [List.takeWhile_cons, hb]
  | cons c a' ih =>
    have hc : q c = true := ha c (List.mem_cons_self _ _)
    simp [List.takeWhile_cons, hc, ih (fun x hx => ha x (List.mem_cons_of_mem _ hx))]

theorem dropWhile_exact {q : Char → Bool} (a : List Char) (b : Char) (rest : List Char)
    (ha : ∀ c ∈ a, q c = true) (hb : q b = false) :
    (a ++ b :: rest).dropWhile q = b :: rest := by
  induction a with
  | nil => simp [List.dropWhile_cons, hb]
  | cons c a' ih =>
    have hc : q c = true := ha c (List.mem_cons_self _ _)
    simp [List.dropWhile_cons, hc, ih (fun x hx => ha x (List.mem_cons_of_mem _ hx))]

theorem span_exact {q : Char → Bool} (a : List Char) (b : Char) (rest : List Char)
    (ha : ∀ c ∈ a, q c = true) (hb : q b = false) :
    (a ++ b :: rest).span q = (a, b :: rest) := by
  rw [List.span_eq_take_drop, takeWhile_exact a b rest ha hb,
    dropWhile_exact a b rest ha hb]

theorem untilAux_exact {stop : Char} (seg rest : List Char)
    (hseg : stop ∉ seg) :
    untilAux stop (seg ++ stop :: rest) = some (seg, rest) := by
  induction seg with
  | nil => simp [untilAux]
  | cons c s' ih =>
    have hc : c ≠ stop := fun h => hseg (h ▸ List.mem_cons_self _ _)
    simp [untilAux, hc, ih (fun h => hseg (List.mem_cons_of_mem _ h))]

theorem takeUntil_exact {stop : Char} (seg rest : List Char)
    (hne : seg ≠ []) (hseg : stop ∉ seg) :
    takeUntil stop (seg ++ stop :: rest) = some (seg, rest) := by
  simp [takeUntil, untilAux_exact seg rest hseg, hne]

theorem digitChar_isDigit {d : Nat} (hd : d < 10) : (digitChar d).isDigit = true := by
  interval_cases d <;> decide

theorem digitChar_toNat {d : Nat} (hd : d < 10) : (digitChar d).toNat = 48 + d := by
  interval_cases d <;> decide

theorem natCharsAux_eq :
    ∀ (fuel n : Nat) (acc : List Char), 0 < n → n < 10 ^ fuel →
      natCharsAux fuel n acc = ((Nat.digits 10 n).reverse.map digitChar) ++ acc := by
  intro fuel
  induction fuel with
  | zero => intro n acc hn hlt; simp at hlt; omega
  | succ fuel ih =>
    intro n acc hn hlt
    by_cases h10 : n < 10
    · rw [show natCharsAux (fuel + 1) n acc = digitChar n :: acc by
        simp [natCharsAux, h10]]
      rw [Nat.digits_def' (by norm_num : (1:Nat) < 10) hn,
        Nat.mod_eq_of_lt h10, Nat.div_eq_of_lt h10]
      simp
    · have hq : 0 < n / 10 := Nat.div_pos (by omega) (by norm_num)
      have hqlt : n / 10 < 10 ^ fuel := by
        rw [Nat.div_lt_iff_lt_mul (by norm_num : (0:Nat) < 10)]
        calc n < 10 ^ (fuel + 1) := hlt
        _ = 10 ^ fuel * 10 := by rw [pow_succ]
      rw [show natCharsAux (fuel + 1) n acc
            = natCharsAux fuel (n / 10) (digitChar (n % 10) :: acc) by
        simp [natCharsAux, h10]]
      rw [ih (n / 10) _ hq hqlt,
        Nat.digits_def' (by norm_num : (1:Nat) < 10) hn]
      simp

theorem natChars_eq {n : Nat} (hn : 0 < n) :
    natChars n = (Nat.digits 10 n).reverse.map digitChar := by
  have hlt : n < 10 ^ (n + 1) := by
    calc n < 2 ^ n := Nat.lt_two_pow n
    _ ≤ 10 ^ n := Nat.pow_le_pow_left (by norm_num) n
    _ ≤ 10 ^ (n + 1) := Nat.pow_le_pow_right (by norm_num) (by omega)
  simpa [natChars] using natCharsAux_eq (n + 1) n [] hn hlt

theorem natChars_ne_nil (n : Nat) : natChars n ≠ [] := by
  rcases Nat.eq_zero_or_pos n with rfl | hn
  · decide
  · rw [natChars_eq hn]
    simp [Nat.digits_ne_nil_iff_ne_zero, Nat.pos_iff_ne_zero.mp hn]

theorem natChars_all_digits (n : Nat) : ∀ c ∈ natChars n, c.isDigit = true := by
  rcases Nat.eq_zero_or_pos n with rfl | hn
  · decide
  · rw [natChars_eq hn]
    intro c hc
    obtain ⟨d, hd, rfl⟩ := List.mem_map.mp hc
    exact digitChar_isDigit
      (Nat.digits_lt_base (by norm_num) (List.mem_reverse.mp hd))

theorem dtn_of_digits :
    ∀ ds : List Nat, (∀ d ∈ ds, d < 10) →
      digitsToNat ((ds.map digitChar).reverse) = Nat.ofDigits 10 ds := by
  intro ds hds
  unfold digitsToNat
  rw [List.foldl_reverse]
  induction ds with
  | nil => simp [Nat.ofDigits_nil]
  | cons d ds ih =>
    have hd : d < 10 := hds d (List.mem_cons_self _ _)
    rw [List.map_cons, List.foldr_cons,
      ih (fun x hx => hds x (List.mem_cons_of_mem _ hx)),
      Nat.ofDigits_cons, digitChar_toNat hd]
    omega

theorem digitsToNat_natChars (n : Nat) : digitsToNat (natChars n) = n := by
  rcases Nat.eq_zero_or_pos n with rfl | hn
  · decide
  · rw [natChars_eq hn, List.map_reverse,
      dtn_of_digits _ (fun d hd => Nat.digits_lt_base (by norm_num) hd)]
    exact Nat.ofDigits_digits 10 n

theorem filter_of_no_comma {l : List Char} (hl : ',' ∉ l) :
    l.filter (fun c => c ≠ ',') = l := by
  refine List.filter_eq_self.mpr (fun a ha => ?_)
  simp only [ne_eq, decide_eq_true_eq]
  exact fun h => hl (h ▸ ha)

theorem commaGroup_filter :
    ∀ (fuel : Nat) (l : List Char), l.length ≤ fuel → ',' ∉ l →
      (commaGroup l).filter (fun c => c ≠ ',') = l := by
  intro fuel
  induction fuel with
  | zero =>
    intro l hl _
    match l with
    | [] => rfl
  | succ fuel ih =>
    intro l hl hc
    match l with
    | [] => rfl
    | [a] => exact filter_of_no_comma hc
    | [a, b] => exact filter_of_no_comma hc
    | [a, b, c] => exact filter_of_no_comma hc
    | a :: b :: c :: d :: rest =>
      have ha : a ≠ ',' := fun h => hc (h ▸ List.mem_cons_self _ _)
      have hb : b ≠ ',' := fun h => hc (by simp [h])
      have hcc : c ≠ ',' := fun h => hc (by simp [h])
      have hrest : ',' ∉ d :: rest := fun h => hc (by simp [List.mem_cons] at h ⊢; tauto)
      have hlen : (d :: rest).length ≤ fuel := by
        simp at hl ⊢; omega
      have ih2 := ih (d :: rest) hlen hrest
      simp only [ne_eq, decide_not] at ih2
      simp only [commaGroup, List.filter_cons]
      simp [ha, hb, hcc, ih2]

theorem commaGroup_subset :
    ∀ (fuel : Nat) (l : List Char), l.length ≤ fuel →
      ∀ c ∈ commaGroup l, c ∈ l ∨ c = ',' := by
  intro fuel
  induction fuel with
  | zero =>
    intro l hl c hcm
    match l with
    | [] => simp [commaGroup] at hcm
  | succ fuel ih =>
    intro l hl c hcm
    match l with
    | [] => simp [commaGroup] at hcm
    | [a] => simp_all [commaGroup]
    | [a, b] => simp_all [commaGroup]
    | [a, b, c2] => simp_all [commaGroup]
    | a :: b :: c2 :: d :: rest =>
      simp only [commaGroup, List.mem_cons] at hcm
      have hlen : (d :: rest).length ≤ fuel := by simp at hl ⊢; omega
      rcases hcm with rfl | rfl | rfl | rfl | h
      · exact Or.inl (by simp)
      · exact Or.inl (by simp)
      · exact Or.inl (by simp)
      · exact Or.inr rfl
      · rcases ih (d :: rest) hlen c h with h2 | h2
        · exact Or.inl (by simp [List.mem_cons] at h2 ⊢; tauto)
        · exact Or.inr h2

theorem commaGroup_ne_nil {l : List Char} (hl : l ≠ []) : commaGroup l ≠ [] := by
  match l with
  | [a] => simp [commaGroup]
  | [a, b] => simp [commaGroup]
  | [a, b, c] => simp [commaGroup]
  | a :: b :: c :: d :: rest => simp [commaGroup]

theorem commaFmt_filter (n : Nat) :
    (commaFmtChars n).filter (fun c => c ≠ ',') = natChars n := by
  unfold commaFmtChars
  rw [List.filter_reverse]
  rw [commaGroup_filter (natChars n).reverse.length _ (le_refl _)
    (fun h => by
      have := natChars_all_digits n ',' (List.mem_reverse.mp h)
      simp at this)]
  rw [List.reverse_reverse]

theorem commaFmt_all (n : Nat) :
    ∀ c ∈ commaFmtChars n, (c.isDigit || c = ',') = true := by
  intro c hc
  unfold commaFmtChars at hc
  rw [List.mem_reverse] at hc
  rcases commaGroup_subset (natChars n).reverse.length _ (le_refl _) c hc with h | h
  · simp [natChars_all_digits n c (List.mem_reverse.mp h)]
  · simp [h]

theorem commaFmt_ne_nil (n : Nat) : commaFmtChars n ≠ [] := by
  unfold commaFmtChars
  simp only [ne_eq, List.reverse_eq_nil_iff]
  exact commaGroup_ne_nil (by simp [natChars_ne_nil n])

theorem digitsToNat_commaFmt (n : Nat) :
    digitsToNat ((commaFmtChars n).filter (fun c => c ≠ ',')) = n := by
  rw [commaFmt_filter]
  exact digitsToNat_natChars n

theorem matchChars_length {p l r : List Char} (h : matchChars p l = some r) :
    r.length + p.length = l.length := by
  have := matchChars_eq_some_iff.mp h
  subst this
  simp [List.length_append]
  omega

theorem untilAux_length {stop : Char} :
    ∀ {l seg r : List Char}, untilAux stop l = some (seg, r) →
      seg.length + 1 + r.length = l.length := by
  intro l
  induction l with
  | nil => intro seg r h; simp [untilAux] at h
  | cons c rest ih =>
    intro seg r h
    by_cases hc : c = stop
    · simp [untilAux, hc] at h
      obtain ⟨rfl, rfl⟩ := h
      simp only [List.length_nil, List.length_cons]
      omega
    · rw [show untilAux stop (c :: rest)
          = (untilAux stop rest).map (fun p => (c :: p.1, p.2)) from by
        simp [untilAux, hc]] at h
      cases hu : untilAux stop rest with
      | none => rw [hu] at h; cases h
      | some p2 =>
        rw [hu] at h
        obtain ⟨s2, r2⟩ := p2
        simp only [Option.map_some'] at h
        have h2 := Option.some.inj h
        have hseg : seg = c :: s2 := congrArg Prod.fst h2 |>.symm
        have hr : r = r2 := congrArg Prod.snd h2 |>.symm
        subst hseg hr
        have := ih hu
        simp only [List.length_cons] at this ⊢
        omega

theorem takeUntil_spec {stop : Char} {l seg r : List Char}
    (h : takeUntil stop l = some (seg, r)) :
    seg.length + 1 + r.length = l.length ∧ seg ≠ [] := by
  unfold takeUntil at h
  cases hu : untilAux stop l with
  | none => rw [hu] at h; cases h
  | some p =>
    rw [hu] at h
    obtain ⟨s2, r2⟩ := p
    by_cases hs : s2 = []
    · simp [hs] at h
    · simp [hs] at h
      obtain ⟨rfl, rfl⟩ := h
      exact ⟨untilAux_length hu, hs⟩

theorem splitAfterFirst_length {p : List Char} (hp : p ≠ []) :
    ∀ {l r : List Char}, splitAfterFirst p l = some r → r.length < l.length := by
  intro l
  induction l with
  | nil =>
    intro r h
    cases p with
    | nil => exact absurd rfl hp
    | cons q qs => simp [splitAfterFirst, matchChars] at h
  | cons c rest ih =>
    intro r h
    have hp1 : 1 ≤ p.length := by
      cases p with
      | nil => exact absurd rfl hp
      | cons _ _ => simp
    cases hm : matchChars p (c :: rest) with
    | some r2 =>
      cases p with
      | nil => exact absurd rfl hp
      | cons q qs =>
        simp only [splitAfterFirst, hm] at h
        obtain rfl : r2 = r := Option.some.inj h
        have := matchChars_length hm
        simp at this ⊢
        omega
    | none =>
      cases p with
      | nil => exact absurd rfl hp
      | cons q qs =>
        simp only [splitAfterFirst, hm] at h
        have := ih h
        simp
        omega

theorem headEntry_length_lt {l : List Char} {pr : List Char × Nat} {rem : List Char}
    (h : headEntry l = some (pr, rem)) : rem.length < l.length := by
  cases h1 : matchChars "### [".data l with
  | none => simp [headEntry, h1] at h
  | some r1 =>
    have hl1 := matchChars_length h1
    simp only [headEntry, h1] at h
    cases h2 : takeUntil ']' r1 with
    | none => simp [h2] at h
    | some p2 =>
      obtain ⟨nm, r2⟩ := p2
      have hl2 := takeUntil_spec h2
      simp only [h2] at h
      cases r2 with
      | nil => simp at h
      | cons c2 r3 =>
        by_cases hc2 : c2 = '('
        · simp only [hc2, if_pos rfl] at h
          cases h3 : takeUntil ')' r3 with
          | none => simp [h3] at h
          | some p3 =>
            obtain ⟨u, r4⟩ := p3
            have hl3 := takeUntil_spec h3
            simp only [h3] at h
            cases h4 : splitAfterFirst starsMarker r4 with
            | none => simp [h4] at h
            | some r5 =>
              have hl4 : r5.length < r4.length :=
                splitAfterFirst_length (by decide) h4
              simp only [h4] at h
              generalize hsp : List.span (fun c => c.isDigit || decide (c = ',')) r5 = q at h
              obtain ⟨s1, s2⟩ := q
              have hs2 : s2.length ≤ r5.length := by
                have : s2 = (List.span (fun c => c.isDigit || decide (c = ',')) r5).2 := by
                  rw [hsp]
                rw [this, List.span_eq_take_drop]
                exact (List.dropWhile_sublist _).length_le
              by_cases h5 : s1 = []
              · simp [h5] at h
              · simp only [h5, if_false, ite_false, if_true, ite_true, Option.some.injEq, Prod.mk.injEq] at h
                have hrem : s2 = rem := by tauto
                simp only [List.length_cons] at hl2 ⊢
                have := congrArg List.length hrem
                omega
        · simp [hc2] at h

theorem headEntry_cons_none {c : Char} {rest : List Char} (h : c ≠ '#') :
    headEntry (c :: rest) = none := by
  have hm : matchChars "### [".data (c :: rest) = none := by
    rw [show "### [".data = '#' :: "## [".data from rfl]
    simp only [matchChars]
    exact if_neg (fun hh => h hh.symm)
  simp [headEntry, hm]

theorem headEntry_starts {l : List Char} {x : (List Char × Nat) × List Char}
    (h : headEntry l = some x) : startsWithCl "### [".data l = true := by
  cases h1 : matchChars "### [".data l with
  | none => simp [headEntry, h1] at h
  | some r1 =>
    rw [startsWithCl_iff]
    exact ⟨r1, matchChars_eq_some_iff.mp h1⟩

theorem scanF_fuel : ∀ (f1 f2 : Nat) (l : List Char),
    l.length ≤ f1 → l.length ≤ f2 → scanF f1 l = scanF f2 l := by
  intro f1
  induction f1 with
  | zero =>
    intro f2 l h1 _
    have : l = [] := List.eq_nil_of_length_eq_zero (Nat.le_zero.mp h1)
    subst this
    cases f2 <;> rfl
  | succ f1 ih =>
    intro f2 l h1 h2
    cases l with
    | nil => cases f2 <;> rfl
    | cons c rest =>
      cases f2 with
      | zero => simp at h2
      | succ f2a =>
        simp only [scanF]
        cases hh : headEntry (c :: rest) with
        | some pr =>
          obtain ⟨p, rem⟩ := pr
          have hlt := headEntry_length_lt hh
          simp only [List.length_cons] at h1 h2 hlt
          show p :: scanF f1 rem = p :: scanF f2a rem
          rw [ih f2a rem (by omega) (by omega)]
        | none =>
          simp only [List.length_cons] at h1 h2
          exact ih f2a rest (by omega) (by omega)

theorem scanEntries_cons_none {c : Char} {rest : List Char}
    (h : headEntry (c :: rest) = none) :
    scanEntries (c :: rest) = scanEntries rest := by
  simp only [scanEntries, List.length_cons, scanF, h]

theorem scanEntries_cons_entry {l : List Char} {p : List Char × Nat} {rem : List Char}
    (h : headEntry l = some (p, rem)) :
    scanEntries l = p :: scanEntries rem := by
  cases l with
  | nil => simp [headEntry, matchChars] at h
  | cons c rest =>
    have hlt := headEntry_length_lt h
    simp only [List.length_cons] at hlt
    simp only [scanEntries, List.length_cons, scanF, h]
    rw [scanF_fuel rest.length rem.length rem (by omega) (le_refl _)]

theorem scanEntries_skip {a b : List Char}
    (h : ∀ t, t ≠ [] → t <:+ a → headEntry (t ++ b) = none) :
    scanEntries (a ++ b) = scanEntries b := by
  induction a with
  | nil => simp
  | cons c a2 ih =>
    have hh : headEntry ((c :: a2) ++ b) = none :=
      h (c :: a2) (by simp) (List.suffix_refl _)
    rw [List.cons_append, scanEntries_cons_none (by simpa using hh)]
    exact ih (fun t ht hsuf => h t ht (hsuf.trans (List.suffix_cons c a2)))

theorem suffix_short {t x y : List Char} (h : t <:+ x ++ y)
    (hlen : t.length ≤ y.length) : t <:+ y := by
  obtain ⟨s, hs⟩ := h
  have hslen : s.length = x.length + (y.length - t.length) := by
    have := congrArg List.length hs
    simp [List.length_append] at this
    omega
  have h1 : t = (x ++ y).drop s.length := by
    rw [← hs, List.drop_left]
  have h2 : (x ++ y).drop s.length = y.drop (y.length - t.length) := by
    rw [hslen, List.drop_append_eq_append_drop]
    simp
  rw [h1, h2]
  exact List.drop_suffix _ _

theorem startsWith_of_long {p t b : List Char}
    (h : startsWithCl p (t ++ b) = true) (hlen : p.length ≤ t.length) :
    startsWithCl p t = true := by
  rw [startsWithCl_iff] at h ⊢
  obtain ⟨w, hw⟩ := h
  have h1 : p = (t ++ b).take p.length := by
    rw [hw]
    simp [List.take_left']
  rw [List.take_append_of_le_length hlen] at h1
  have h2 : t = p ++ t.drop p.length := by
    conv_lhs => rw [← List.take_append_drop p.length t]
    rw [← h1]
  exact ⟨t.drop p.length, h2⟩

theorem headEntry_region_none {a b fixed : List Char}
    (hsuffix : fixed <:+ a)
    (hf4 : 4 ≤ fixed.length)
    (hfix : ∀ t ∈ fixed.tails, t.head? ≠ some '#')
    (hocc : occursCl "### [".data a = false) :
    ∀ t, t ≠ [] → t <:+ a → headEntry (t ++ b) = none := by
  intro t ht hsuf
  by_cases hlen : t.length ≤ fixed.length
  · obtain ⟨core, hc⟩ := hsuffix
    subst hc
    have hsuf2 : t <:+ fixed := suffix_short hsuf hlen
    cases t with
    | nil => exact absurd rfl ht
    | cons c t2 =>
      refine headEntry_cons_none (fun hc2 => ?_)
      exact hfix (c :: t2) ((List.mem_tails _ _).mpr hsuf2) (by simp [hc2])
  · cases hh : headEntry (t ++ b) with
    | none => rfl
    | some x =>
      have hst : startsWithCl "### [".data t =
          true := startsWith_of_long (headEntry_starts hh) (by simp; omega)
      have := occurs_of_suffix_starts hsuf hst
      rw [this] at hocc
      cases hocc

theorem skip_tail_chars {a b : List Char}
    (ha : ∀ t ∈ a.tails, t.head? ≠ some '#') :
    scanEntries (a ++ b) = scanEntries b := by
  refine scanEntries_skip (fun t ht hsuf => ?_)
  cases t with
  | nil => exact absurd rfl ht
  | cons c t2 =>
    refine headEntry_cons_none (fun hc2 => ?_)
    exact ha (c :: t2) ((List.mem_tails _ _).mpr hsuf) (by simp [hc2])

theorem entryTail_head (Y : List Char) {c : Char} {cs : List Char}
    (h : entryTail ++ Y = c :: cs) : (c.isDigit || c = ',') = false := by
  have h2 : ('\n' : Char) :: ("\n---\n\n".data ++ Y) = c :: cs := h
  have hc : c = '\n' := (List.cons.inj h2).1.symm
  subst hc
  decide

theorem headEntry_build (nm url mid : List Char) (k : Nat) (z : List Char)
    (hnm_ne : nm ≠ []) (hnm : ']' ∉ nm)
    (hurl_ne : url ≠ []) (hurl : ')' ∉ url)
    (hmid : occursCl starsMarker (mid ++ starsMarker.dropLast) = false)
    (hz : ∀ c cs, z = c :: cs → (c.isDigit || c = ',') = false) :
    headEntry ("### [".data ++ (nm ++ (']' :: '(' :: (url ++ (')' ::
        (mid ++ (starsMarker ++ (commaFmtChars k ++ z))))))))
      = some ((nm, k), z) := by
  have hm1 := matchChars_append_self "### [".data
    (nm ++ (']' :: '(' :: (url ++ (')' :: (mid ++ (starsMarker ++ (commaFmtChars k ++ z)))))))
  have hm2 := takeUntil_exact nm
    ('(' :: (url ++ (')' :: (mid ++ (starsMarker ++ (commaFmtChars k ++ z)))))) hnm_ne hnm
  have hm3 := takeUntil_exact url
    (mid ++ (starsMarker ++ (commaFmtChars k ++ z))) hurl_ne hurl
  have hm4 := splitAfterFirst_exact mid (commaFmtChars k ++ z) (by decide) hmid
  have hspan : (commaFmtChars k ++ z).span (fun c => c.isDigit || c = ',')
      = (commaFmtChars k, z) := by
    cases z with
    | nil =>
      rw [List.append_nil, List.span_eq_take_drop]
      have hw1 : (commaFmtChars k).takeWhile (fun c => c.isDigit || c = ',')
          = commaFmtChars k :=
        List.takeWhile_eq_self_iff.mpr (by
          intro a haa
          simpa using commaFmt_all k a haa)
      have hw2 : (commaFmtChars k).dropWhile (fun c => c.isDigit || c = ',')
          = [] :=
        List.dropWhile_eq_nil_iff.mpr (by
          intro a haa
          simpa using commaFmt_all k a haa)
      rw [hw1, hw2]
    | cons c cs =>
      exact span_exact (commaFmtChars k) c cs (commaFmt_all k) (hz c cs rfl)
  simp only [headEntry, hm1, hm2]
  rw [if_true]
  simp only [hm3, hm4, hspan]
  rw [if_neg (commaFmt_ne_nil k), digitsToNat_commaFmt]

theorem headEntry_entryHead (r : StoreRepo) (z : List Char)
    (hok : entryOk r = true)
    (hz : ∀ c cs, z = c :: cs → (c.isDigit || c = ',') = false) :
    headEntry (entryHead r ++ z) = some ((r.name.data, r.stargazers_count), z) := by
  simp only [entryOk, Bool.and_eq_true, Bool.not_eq_true'] at hok
  obtain ⟨⟨⟨⟨h1, h2⟩, h3⟩, h4⟩, h5⟩ := hok
  have hname_ne : r.name.data ≠ [] := by
    intro hn
    rw [hn] at h1
    simp at h1
  have hname_nomem : ']' ∉ r.name.data := by simpa using h2
  have hurl_ne : r.html_url.data ≠ [] := by
    intro hn
    rw [hn] at h3
    simp at h3
  have hurl_nomem : ')' ∉ r.html_url.data := by simpa using h4
  have hshape : entryHead r ++ z
      = "### [".data ++ (r.name.data ++ (']' :: '(' :: (r.html_url.data
        ++ (')' :: (entryMiddle r ++ (starsMarker
        ++ (commaFmtChars r.stargazers_count ++ z))))))) := by
    simp only [entryHead, show ("](".data : List Char) = [']', '('] from rfl,
      show (")".data : List Char) = [')'] from rfl, List.append_assoc,
      List.cons_append, List.nil_append]
  rw [hshape]
  exact headEntry_build r.name.data r.html_url.data (entryMiddle r)
    r.stargazers_count z hname_ne hname_nomem hurl_ne hurl_nomem h5 hz

theorem scan_block (foot : List Char) (hfoot : scanEntries foot = []) :
    ∀ ds : List StoreRepo, (∀ r ∈ ds, entryOk r = true) →
      scanEntries ((ds.map entryCl).flatten ++ foot)
        = ds.map (fun r => (r.name.data, r.stargazers_count)) := by
  intro ds
  induction ds with
  | nil =>
    intro _
    simpa using hfoot
  | cons r ds2 ih =>
    intro hok
    have hshape : (((r :: ds2).map entryCl).flatten ++ foot : List Char)
        = entryHead r ++ (entryTail ++ ((ds2.map entryCl).flatten ++ foot)) := by
      simp [entryCl, List.append_assoc]
    rw [hshape]
    rw [scanEntries_cons_entry (headEntry_entryHead r
      (entryTail ++ ((ds2.map entryCl).flatten ++ foot))
      (hok r (List.mem_cons_self _ _))
      (fun c cs h => entryTail_head _ h))]
    have hskip : ∀ t ∈ entryTail.tails, t.head? ≠ some '#' := by decide
    rw [skip_tail_chars hskip]
    rw [ih (fun x hx => hok x (List.mem_cons_of_mem _ hx))]
    simp

theorem matchTotalAt_cons_none {c : Char} {rest : List Char} (h : c ≠ '本') :
    matchTotalAt (c :: rest) = none := by
  have hm : matchChars "本分类共有 **".data (c :: rest) = none := by
    rw [show ("本分类共有 **".data : List Char) = '本' :: "分类共有 **".data from rfl]
    simp only [matchChars]
    exact if_neg (fun hh => h hh.symm)
  simp [matchTotalAt, hm]

theorem matchTotalAt_exact (total : Nat) (R : List Char) :
    matchTotalAt ("本分类共有 **".data ++ (natChars total ++ ("** 个项目".data ++ R)))
      = some total := by
  have hm1 := matchChars_append_self "本分类共有 **".data
    (natChars total ++ ("** 个项目".data ++ R))
  have hsp : (natChars total ++ ("** 个项目".data ++ R)).span Char.isDigit
      = (natChars total, "** 个项目".data ++ R) := by
    rw [show ("** 个项目".data ++ R : List Char) = '*' :: ("* 个项目".data ++ R) from rfl]
    exact span_exact (natChars total) '*' ("* 个项目".data ++ R)
      (fun c hc => natChars_all_digits total c hc) (by decide)
  have hm2 := matchChars_append_self "** 个项目".data R
  simp only [matchTotalAt, hm1, hsp]
  rw [if_neg (natChars_ne_nil total)]
  simp only [hm2]
  rw [digitsToNat_natChars]

theorem extractTotal_cons_some {c : Char} {rest : List Char} {n : Nat}
    (h : matchTotalAt (c :: rest) = some n) : extractTotal (c :: rest) = some n := by
  simp only [extractTotal, h]

theorem extractTotal_cons_none {c : Char} {rest : List Char}
    (h : matchTotalAt (c :: rest) = none) :
    extractTotal (c :: rest) = extractTotal rest := by
  simp only [extractTotal, h]

theorem extractTotal_pre : ∀ (pre : List Char) (total : Nat) (R : List Char),
    '本' ∉ pre →
    extractTotal (pre ++ ("本分类共有 **".data
      ++ (natChars total ++ ("** 个项目".data ++ R)))) = some total := by
  intro pre
  induction pre with
  | nil =>
    intro total R _
    rw [List.nil_append]
    exact extractTotal_cons_some (matchTotalAt_exact total R)
  | cons c pre2 ih =>
    intro total R hmem
    have hc : c ≠ '本' := fun hh => hmem (hh ▸ List.mem_cons_self _ _)
    rw [List.cons_append]
    rw [extractTotal_cons_none (matchTotalAt_cons_none hc)]
    exact ih total R (fun hh => hmem (List.mem_cons_of_mem _ hh))

theorem extractTotal_headerCl (cat : String) (dl tl : Nat) (now : String)
    (Y : List Char) (hcat : '本' ∉ cat.data) :
    extractTotal (headerCl cat dl tl now ++ Y) = some tl := by
  have hshape : headerCl cat dl tl now ++ Y
      = ("# ".data ++ (cat.data ++ "\n\n".data))
        ++ ("本分类共有 **".data ++ (natChars tl ++ ("** 个项目".data
          ++ ((if dl < tl then
                "，当前显示前 **".data ++ natChars dl ++ "** 个项目".data
              else [])
            ++ ("。\n\n".data ++ ("*最后更新时间: ".data
              ++ (now.data ++ ("*\n\n".data ++ Y)))))))) := by
    simp only [headerCl, List.append_assoc]
  rw [hshape]
  refine extractTotal_pre _ tl _ ?_
  intro hmem
  rcases List.mem_append.mp hmem with h | h
  · revert h
    decide
  · rcases List.mem_append.mp h with h2 | h2
    · exact hcat h2
    · revert h2
      decide

theorem extractTotal_genContent (cat : String) (repos : List StoreRepo)
    (maxP : Nat) (now : String) (hcat : '本' ∉ cat.data) :
    extractTotal (genContent cat repos maxP now) = some repos.length := by
  have hshape : genContent cat repos maxP now
      = headerCl cat (displayOf repos maxP).length repos.length now
        ++ (tocCl (displayOf repos maxP)
          ++ ("## 项目列表\n\n".data
            ++ (((displayOf repos maxP).map entryCl).flatten
              ++ footerCl cat repos.length (displayOf repos maxP).length now))) := by
    simp only [genContent, List.append_assoc]
  rw [hshape]
  exact extractTotal_headerCl cat _ _ now _ hcat

theorem scanEntries_genContent (cat : String) (repos : List StoreRepo)
    (maxP : Nat) (now : String)
    (hpre : occursCl "### [".data (preRegion cat repos maxP now) = false)
    (hfoot : occursCl "### [".data (footRegion cat repos maxP now) = false)
    (hok : ∀ r ∈ displayOf repos maxP, entryOk r = true) :
    scanEntries (genContent cat repos maxP now)
      = (displayOf repos maxP).map (fun r => (r.name.data, r.stargazers_count)) := by
  have hsufpre : ("列表\n\n".data : List Char) <:+ preRegion cat repos maxP now := by
    simp only [preRegion]
    exact List.IsSuffix.trans
      (⟨"## 项目".data, rfl⟩ :
        ("列表\n\n".data : List Char) <:+ "## 项目列表\n\n".data)
      (List.suffix_append _ _)
  have hsuffoot : ("生成*\n".data : List Char) <:+ footRegion cat repos maxP now := by
    simp only [footRegion, footerCl]
    exact List.IsSuffix.trans
      (⟨"*本文档由 [GitHub Star Manager](https://github.com/your-username/github-star-manager) 自动".data, rfl⟩ :
        ("生成*\n".data : List Char)
          <:+ "*本文档由 [GitHub Star Manager](https://github.com/your-username/github-star-manager) 自动生成*\n".data)
      (List.suffix_append _ _)
  have hfscan : scanEntries (footRegion cat repos maxP now) = [] := by
    have hsk : ∀ t, t ≠ [] → t <:+ footRegion cat repos maxP now
        → headEntry (t ++ ([] : List Char)) = none :=
      headEntry_region_none hsuffoot (by decide) (by decide) hfoot
    have h2 := scanEntries_skip hsk
    simpa using h2
  have hshape : genContent cat repos maxP now
      = preRegion cat repos maxP now
        ++ (((displayOf repos maxP).map entryCl).flatten
          ++ footRegion cat repos maxP now) := by
    simp only [genContent, preRegion, footRegion, List.append_assoc]
  rw [hshape]
  rw [scanEntries_skip (headEntry_region_none hsufpre (by decide) (by decide) hpre)]
  exact scan_block _ hfscan _ hok

theorem length_insertDescBy {α : Type} (f : α → Nat) (x : α) :
    ∀ l : List α, (StoreMgr.insertDescBy f x l).length = l.length + 1 := by
  intro l
  induction l with
  | nil => rfl
  | cons y ys ih =>
    by_cases h : f y > f x
    · simp [StoreMgr.insertDescBy, h, ih]
    · simp [StoreMgr.insertDescBy, h]

theorem length_sortDescBy {α : Type} (f : α → Nat) (l : List α) :
    (StoreMgr.sortDescBy f l).length = l.length := by
  induction l with
  | nil => rfl
  | cons y ys ih =>
    show (StoreMgr.insertDescBy f y (StoreMgr.sortDescBy f ys)).length = ys.length + 1
    rw [length_insertDescBy, ih]

theorem length_displayOf (repos : List StoreRepo) (maxP : Nat) :
    (displayOf repos maxP).length = min repos.length maxP := by
  rw [displayOf, List.length_take, length_sortDescBy, Nat.min_comm]

theorem find_name {l : List StoreRepo} {r : StoreRepo}
    (hnodup : (l.map (fun x => x.name.data)).Nodup) (hr : r ∈ l) :
    (l.map (fun x => (x.name.data, x.stargazers_count))).find?
      (fun p => p.1 = r.name.data) = some (r.name.data, r.stargazers_count) := by
  induction l with
  | nil => cases hr
  | cons a l2 ih =>
    simp only [List.map_cons] at hnodup ⊢
    rw [List.nodup_cons] at hnodup
    by_cases hA : a.name.data = r.name.data
    · rcases List.mem_cons.mp hr with rfl | hrl
      · rw [List.find?_cons_of_pos _ (by simp)]
      · exfalso
        have hmm : r.name.data ∈ l2.map (fun x => x.name.data) :=
          List.mem_map_of_mem _ hrl
        rw [← hA] at hmm
        exact hnodup.1 hmm
    · rw [List.find?_cons_of_neg _ (by simp [hA])]
      refine ih hnodup.2 ?_
      rcases List.mem_cons.mp hr with rfl | hrl
      · exact absurd rfl hA
      · exact hrl

theorem lookupLast_self {ds : List StoreRepo} {r : StoreRepo}
    (hnodup : (ds.map (fun x => x.name.data)).Nodup) (hr : r ∈ ds) :
    lookupLast (ds.map (fun x => (x.name.data, x.stargazers_count))) r.name.data
      = some r.stargazers_count := by
  unfold lookupLast
  rw [← List.map_reverse]
  have hnd2 : (ds.reverse.map (fun x => x.name.data)).Nodup := by
    rw [List.map_reverse]
    exact List.nodup_reverse.mpr hnodup
  have hr2 : r ∈ ds.reverse := List.mem_reverse.mpr hr
  rw [find_name hnd2 hr2]
  rfl

theorem needs_update_generated (cat : String) (repos : List StoreRepo)
    (maxP : Nat) (t1 : String)
    (hcat : '本' ∉ cat.data)
    (hpre : occursCl "### [".data (preRegion cat repos maxP t1) = false)
    (hfoot : occursCl "### [".data (footRegion cat repos maxP t1) = false)
    (hok : ∀ r ∈ displayOf repos maxP, entryOk r = true)
    (hnodup : ((displayOf repos maxP).map (fun r => r.name.data)).Nodup) :
    needs_update (some (genContent cat repos maxP t1)) repos maxP = false := by
  have hex := extractTotal_genContent cat repos maxP t1 hcat
  have hscan := scanEntries_genContent cat repos maxP t1 hpre hfoot hok
  simp only [needs_update, hex, hscan]
  rw [if_neg (fun hcon => hcon rfl)]
  have hlen : ((displayOf repos maxP).map
      (fun r => (r.name.data, r.stargazers_count))).length
      = min repos.length maxP := by
    rw [List.length_map, length_displayOf]
  rw [if_neg (fun hcon => hcon hlen)]
  refine List.any_eq_false.mpr ?_
  intro r hr
  simp [lookupLast_self hnodup hr]

/-- C7: running the document generator twice on unchanged store data is
idempotent — provided the displayed entries scan back faithfully (pairwise
distinct nonempty names without a closing bracket, nonempty URLs without a
closing parenthesis, rendered text free of the scanned patterns).  The
first call writes the rendered content and returns success; the second
call, with any new timestamp, parses that file, finds the item count and
the displayed name-to-star pairs unchanged, skips the write, leaves the
file byte-identical, and still returns success. -/
theorem generate_category_document_idempotent
    (cat : String) (repos : List StoreRepo) (maxP : Nat) (t1 t2 : String)
    (hne : repos ≠ [])
    (hcat : '本' ∉ cat.data)
    (hpre : occursCl "### [".data (preRegion cat repos maxP t1) = false)
    (hfoot : occursCl "### [".data (footRegion cat repos maxP t1) = false)
    (hok : ∀ r ∈ displayOf repos maxP, entryOk r = true)
    (hnodup : ((displayOf repos maxP).map (fun r => r.name.data)).Nodup) :
    generate_category_document cat repos maxP t1 none
      = (true, some (genContent cat repos maxP t1))
    ∧ generate_category_document cat repos maxP t2
        (some (genContent cat repos maxP t1))
      = (true, some (genContent cat repos maxP t1)) := by
  have hnu := needs_update_generated cat repos maxP t1 hcat hpre hfoot hok hnodup
  have hemp : repos.isEmpty = false := by
    cases repos with
    | nil => exact absurd rfl hne
    | cons a l => rfl
  constructor
  · simp [generate_category_document, hemp, needs_update]
  · simp [generate_category_document, hemp, hnu]

set_option maxRecDepth 100000 in
/-- C7 counterexample: with two same-named displayed repositories the
scanned name-to-stars dict collapses them, the regenerated document never
matches the file, and the second run rewrites it with the fresh timestamp,
changing the bytes. -/
theorem generate_category_document_not_idempotent_cex :
    (generate_category_document "c" [dupRepoA, dupRepoB] 10 "T2"
        (generate_category_document "c" [dupRepoA, dupRepoB] 10 "T1" none).2).2
      ≠ (generate_category_document "c" [dupRepoA, dupRepoB] 10 "T1" none).2 := by
  decide

set_option maxRecDepth 100000 in
/-- Witness for the C7 theorem: a concrete clean run where every
hypothesis holds by evaluation. -/
theorem generate_category_document_idempotent_witness :
    generate_category_document "工具" [cleanRepo] 10 "T1" none
      = (true, some (genContent "工具" [cleanRepo] 10 "T1"))
    ∧ generate_category_document "工具" [cleanRepo] 10 "T2"
        (some (genContent "工具" [cleanRepo] 10 "T1"))
      = (true, some (genContent "工具" [cleanRepo] 10 "T1")) :=
  generate_category_document_idempotent "工具" [cleanRepo] 10 "T1" "T2"
    (by decide) (by decide) (by decide) (by decide) (by decide) (by decide)

end DocGenTheorems
